import Mathlib

/-!
# Verification of the partition index stream loop (`pindex_run.go`)

Shallow embedding of `PIndex.Run` and `RunBleveStream`.

Modelling conventions.

* The mailbox (`pindex.Stream`, a Go channel of requests) is the finite list of
  requests that are received from it before it is closed.  `for req := range`
  over it is structural recursion over that list.
* A Go channel carried inside a request is an identifier (`ChanId`); the `nil`
  channel is `none`.  Completion conduits have type `chan error`, reply conduits
  have type `chan []byte`, so the two identifier spaces are separate.
* The Go runtime rules for channels are part of the model: `close` of a `nil`
  channel, `close` of a closed channel and a send on a closed channel all panic.
  The set of closed channels is carried in `Runtime`.  A send is taken to be
  received (blocking for want of a receiver is a scheduling matter outside the
  embedding).
* The index engine (`bleve.Index`) is an arbitrary state machine `BleveIndex σ`:
  every call may change the engine state and may return an error.
* Everything the loop does to the outside world is recorded, in program order,
  as a list of `Event`s.  `log.Printf` calls are not recorded.
* `pindex.Impl` and the `bindex` argument are the same engine, as in the only
  call site (`pindex.Impl.(bleve.Index)`).
* A panic ends the goroutine: nothing is done after it, and the events emitted
  up to it are kept (`Exec.panic`).
* The manager (`PIndexManager`) is external; its two calls are recorded as
  events.
-/

namespace Cbgt

/-- Go `[]byte` (and the `string(req.Key)` made from it): a sequence of bytes. -/
abbrev Bytes := List Nat

/-- Identity of a Go channel value. -/
abbrev ChanId := Nat

/-- Modelled from the spec: the `STREAM_OP_*` constants, which `RunBleveStream`
switches on and which are declared outside `pindex_run.go`; the spec's `op` is
one of NOOP, UPDATE, DELETE, FLUSH, ROLLBACK, GET_META, SET_META. -/
inductive StreamOp
  | STREAM_OP_NOOP
  | STREAM_OP_UPDATE
  | STREAM_OP_DELETE
  | STREAM_OP_FLUSH
  | STREAM_OP_ROLLBACK
  | STREAM_OP_GET_META
  | STREAM_OP_SET_META
  deriving DecidableEq, Repr

open StreamOp

/-- The `Misc interface{}` field of a request: the nil interface, a value of
dynamic type `chan []byte` (whose channel may itself be nil), or a value of any
other dynamic type. -/
inductive MiscVal
  | nil
  | bytesChan (c : Option ChanId)
  | other (tag : Nat)
  deriving DecidableEq, Repr

/-- Modelled from the spec: the `StreamRequest` struct, declared outside
`pindex_run.go`, with the fields of the spec's Stream Request under the names the
source reads them by (`Op`, `Partition`, `Key`, `Val`, `Misc`, `DoneCh`). -/
structure StreamRequest where
  Op : StreamOp
  Partition : String
  Key : Bytes
  Val : Bytes
  Misc : MiscVal
  DoneCh : Option ChanId
  deriving DecidableEq, Repr

/-- Go `error` values seen by the loop: an error returned by the engine, or the
`fmt.Errorf("error: pindex already done, req: %#v", req)` built by `Run`. -/
inductive GoError
  | engine (code : Nat)
  | pindexAlreadyDone (req : StreamRequest)
  deriving DecidableEq, Repr

/-- Modelled from the spec: the `PIndex` struct, declared outside `pindex_run.go`,
with the fields the source reads (`IndexType`, the spec's `engineKind`, and
`Path`); its `Stream` and `Impl` are passed separately. -/
structure PIndex where
  IndexType : String
  Path : String
  deriving DecidableEq, Repr

/-- Externally visible effects, in program order. -/
inductive Event
  | engineIndex (id : Bytes) (val : Bytes)
  | engineDelete (id : Bytes)
  | engineGetInternal (key : Bytes)
  | engineSetInternal (key : Bytes) (val : Bytes)
  | engineClose
  | removeAll (path : String)
  | doneSend (c : ChanId) (e : GoError)
  | doneClose (c : ChanId)
  | miscSend (c : ChanId) (v : Bytes)
  | miscClose (c : ChanId)
  | mgrClosePIndex (pindex : PIndex)
  | mgrKick (msg : String)
  deriving DecidableEq, Repr

/-- Go runtime panics that the loop can raise. -/
inductive GoPanic
  | closeOfNilChannel
  | closeOfClosedChannel
  | sendOnClosedChannel
  deriving DecidableEq, Repr

/-- Modelled from the spec: the Index Engine Capability (`bleve.Index`, an
external library), with the five calls the source makes, over an engine state
`σ`; every call may change the state, and every call but `Close` may fail. -/
structure BleveIndex (σ : Type) where
  Index : σ → Bytes → Bytes → σ × Option GoError
  Delete : σ → Bytes → σ × Option GoError
  GetInternal : σ → Bytes → σ × Bytes × Option GoError
  SetInternal : σ → Bytes → Bytes → σ × Option GoError
  Close : σ → σ

/-- What the loop's effects depend on: the engine state and which channels have
been closed so far. -/
structure Runtime (σ : Type) where
  impl : σ
  closedDone : List ChanId
  closedMisc : List ChanId

/-- A runtime in which no channel has been closed yet. -/
def Runtime.init {σ : Type} (impl : σ) : Runtime σ :=
  { impl := impl, closedDone := [], closedMisc := [] }

/-- Result of running a piece of Go code: it ends normally in a new runtime with
a value, or it panics; either way the events emitted so far are kept. -/
inductive Exec (σ : Type) (α : Type)
  | ok (s : Runtime σ) (evs : List Event) (a : α)
  | panic (evs : List Event) (msg : GoPanic)

namespace Exec

variable {σ α : Type}

/-- The events emitted, whether or not the code panicked. -/
def events : Exec σ α → List Event
  | ok _ evs _ => evs
  | panic evs _ => evs

/-- The value, when the code ended normally. -/
def value : Exec σ α → Option α
  | ok _ _ a => some a
  | panic _ _ => none

/-- Whether the code panicked. -/
def panicked : Exec σ α → Bool
  | ok _ _ _ => false
  | panic _ _ => true

/-- Put the events of earlier code in front. -/
def after (pre : List Event) : Exec σ α → Exec σ α
  | ok s evs a => ok s (pre ++ evs) a
  | panic evs msg => panic (pre ++ evs) msg

end Exec

/-- What one pass through the loop body tells the loop: go on (`none`), or return
`(closeImpl, cleanupPath, err)`. -/
abbrev LoopExit := Option (Bool × Bool × Option GoError)

/-- Lines 146-156 of `RunBleveStream`: with `err` the loop variable of that name,
send it on `req.DoneCh` when it is not nil, then close `req.DoneCh`. -/
def signalDone {σ : Type} (s : Runtime σ) (req : StreamRequest)
    (err : Option GoError) : Exec σ LoopExit :=
  match req.DoneCh with
  | none => .ok s [] none
  | some c =>
    match err with
    | some e =>
      if c ∈ s.closedDone then .panic [] .sendOnClosedChannel
      else .ok { s with closedDone := c :: s.closedDone }
        [.doneSend c e, .doneClose c] none
    | none =>
      if c ∈ s.closedDone then .panic [] .closeOfClosedChannel
      else .ok { s with closedDone := c :: s.closedDone } [.doneClose c] none

/-- Lines 130-137: the `GET_META` case.  The `err` assigned by `:=` here is a new
variable local to the case, so the loop's own `err` stays nil: the value handed
to `signalDone` is `none`. -/
def getMeta {σ : Type} (bindex : BleveIndex σ) (s : Runtime σ)
    (req : StreamRequest) : Exec σ LoopExit :=
  let r := bindex.GetInternal s.impl req.Key
  let s1 : Runtime σ := { s with impl := r.1 }
  let v := r.2.1
  let gerr := r.2.2
  let evs := [Event.engineGetInternal req.Key]
  match req.Misc with
  | .nil => (signalDone s1 req none).after evs
  | .other _ => .panic evs .closeOfNilChannel
  | .bytesChan none => .panic evs .closeOfNilChannel
  | .bytesChan (some c) =>
    match gerr with
    | none =>
      if c ∈ s1.closedMisc then .panic evs .sendOnClosedChannel
      else (signalDone { s1 with closedMisc := c :: s1.closedMisc } req none).after
        (evs ++ [.miscSend c v, .miscClose c])
    | some _ =>
      if c ∈ s1.closedMisc then .panic evs .closeOfClosedChannel
      else (signalDone { s1 with closedMisc := c :: s1.closedMisc } req none).after
        (evs ++ [.miscClose c])

/-- Lines 94-124: the `ROLLBACK` case. -/
def rollback {σ : Type} (bindex : BleveIndex σ) (pindex : PIndex) (s : Runtime σ)
    (req : StreamRequest) : Exec σ LoopExit :=
  let s1 : Runtime σ := { s with impl := bindex.Close s.impl }
  let evs := [Event.engineClose, Event.removeAll pindex.Path]
  match req.DoneCh with
  | some c =>
    if c ∈ s1.closedDone then .panic evs .closeOfClosedChannel
    else .ok { s1 with closedDone := c :: s1.closedDone }
      (evs ++ [.doneClose c, .mgrClosePIndex pindex, .mgrKick "stream-rollback"])
      (some (false, false, none))
  | none =>
    .ok s1 (evs ++ [.mgrClosePIndex pindex, .mgrKick "stream-rollback"])
      (some (false, false, none))

/-- Lines 66-156: the body of the loop of `RunBleveStream` for one request. -/
def loopBody {σ : Type} (bindex : BleveIndex σ) (pindex : PIndex) (s : Runtime σ)
    (req : StreamRequest) : Exec σ LoopExit :=
  match req.Op with
  | STREAM_OP_NOOP => signalDone s req none
  | STREAM_OP_UPDATE =>
    let r := bindex.Index s.impl req.Key req.Val
    (signalDone { s with impl := r.1 } req r.2).after [.engineIndex req.Key req.Val]
  | STREAM_OP_DELETE =>
    let r := bindex.Delete s.impl req.Key
    (signalDone { s with impl := r.1 } req r.2).after [.engineDelete req.Key]
  | STREAM_OP_FLUSH => signalDone s req none
  | STREAM_OP_ROLLBACK => rollback bindex pindex s req
  | STREAM_OP_GET_META => getMeta bindex s req
  | STREAM_OP_SET_META =>
    let r := bindex.SetInternal s.impl req.Key req.Val
    (signalDone { s with impl := r.1 } req r.2).after
      [.engineSetInternal req.Key req.Val]

/-- The value `RunBleveStream` hands back: `(closeImpl, cleanupPath, err)`, and
with it the requests still in the stream that it has not received. -/
structure StreamResult where
  closeImpl : Bool
  cleanupPath : Bool
  err : Option GoError
  unread : List StreamRequest
  deriving DecidableEq, Repr

/-- `RunBleveStream(mgr, pindex, stream, bindex)`. -/
def RunBleveStream {σ : Type} (bindex : BleveIndex σ) (pindex : PIndex) :
    Runtime σ → List StreamRequest → Exec σ StreamResult
  | s, [] => .ok s [] ⟨true, true, none, []⟩
  | s, req :: rest =>
    match loopBody bindex pindex s req with
    | .panic evs msg => .panic evs msg
    | .ok s1 evs (some (ci, cp, e)) => .ok s1 evs ⟨ci, cp, e, rest⟩
    | .ok s1 evs none => (RunBleveStream bindex pindex s1 rest).after evs

/-- Lines 55-60 of `PIndex.Run`: reject what is still in the stream. -/
def rejectAll {σ : Type} : Runtime σ → List StreamRequest → Exec σ Unit
  | s, [] => .ok s [] ()
  | s, req :: rest =>
    match req.DoneCh with
    | none => rejectAll s rest
    | some c =>
      if c ∈ s.closedDone then .panic [] .sendOnClosedChannel
      else (rejectAll { s with closedDone := c :: s.closedDone } rest).after
        [.doneSend c (.pindexAlreadyDone req), .doneClose c]

/-- Lines 45-60 of `PIndex.Run`: honour the two flags, then reject the rest. -/
def teardown {σ : Type} (bindex : BleveIndex σ) (pindex : PIndex) (s : Runtime σ)
    (closeImpl cleanupPath : Bool) (rest : List StreamRequest) : Exec σ Unit :=
  let s1 : Runtime σ := if closeImpl then { s with impl := bindex.Close s.impl } else s
  let e1 := if closeImpl then [Event.engineClose] else []
  let e2 := if cleanupPath then [Event.removeAll pindex.Path] else []
  (rejectAll s1 rest).after (e1 ++ e2)

/-- `pindex.Run(mgr)`, with `stream` the contents of `pindex.Stream`. -/
def PIndex.Run {σ : Type} (bindex : BleveIndex σ) (pindex : PIndex) (s : Runtime σ)
    (stream : List StreamRequest) : Exec σ Unit :=
  if pindex.IndexType = "bleve" then
    match RunBleveStream bindex pindex s stream with
    | .panic evs msg => .panic evs msg
    | .ok s1 evs res =>
      (teardown bindex pindex s1 res.closeImpl res.cleanupPath res.unread).after evs
  else
    teardown bindex pindex s true true stream

/-! ## Observations on traces and requests -/

/-- An engine data call: `Index`, `Delete`, `GetInternal` or `SetInternal`. -/
def Event.isEngineCall : Event → Bool
  | .engineIndex _ _ => true
  | .engineDelete _ => true
  | .engineGetInternal _ => true
  | .engineSetInternal _ _ => true
  | _ => false

/-- An engine write call: `Index` or `Delete`. -/
def Event.isWrite : Event → Bool
  | .engineIndex _ _ => true
  | .engineDelete _ => true
  | _ => false

/-- A teardown or manager effect: engine `Close`, `os.RemoveAll`,
`mgr.ClosePIndex`, `mgr.Kick`. -/
def Event.isLifecycle : Event → Bool
  | .engineClose => true
  | .removeAll _ => true
  | .mgrClosePIndex _ => true
  | .mgrKick _ => true
  | _ => false

/-- A send on, or the close of, the completion conduit `c`. -/
def Event.onDone (c : ChanId) : Event → Bool
  | .doneSend d _ => d = c
  | .doneClose d => d = c
  | _ => false

/-- A send on, or the close of, the reply conduit `c`. -/
def Event.onMisc (c : ChanId) : Event → Bool
  | .miscSend d _ => d = c
  | .miscClose d => d = c
  | _ => false

/-- The engine data call that the switch makes for a request, if any. -/
def engineCallOf (req : StreamRequest) : Option Event :=
  match req.Op with
  | STREAM_OP_UPDATE => some (.engineIndex req.Key req.Val)
  | STREAM_OP_DELETE => some (.engineDelete req.Key)
  | STREAM_OP_GET_META => some (.engineGetInternal req.Key)
  | STREAM_OP_SET_META => some (.engineSetInternal req.Key req.Val)
  | _ => none

/-- The engine write call of an `UPDATE` or `DELETE` request. -/
def writeCallOf (req : StreamRequest) : Option Event :=
  match req.Op with
  | STREAM_OP_UPDATE => some (.engineIndex req.Key req.Val)
  | STREAM_OP_DELETE => some (.engineDelete req.Key)
  | _ => none

/-- The reply conduit that a `GET_META` request carries in `Misc`, if any. -/
def miscChanOf (req : StreamRequest) : Option ChanId :=
  match req.Op, req.Misc with
  | STREAM_OP_GET_META, .bytesChan (some c) => some c
  | _, _ => none

/-- The completion conduits of a sequence of requests, in order. -/
def doneChans (reqs : List StreamRequest) : List ChanId :=
  reqs.filterMap (fun r => r.DoneCh)

/-- The reply conduits of the `GET_META` requests of a sequence, in order. -/
def miscChans (reqs : List StreamRequest) : List ChanId :=
  reqs.filterMap miscChanOf

/-- The `Misc` payload of a `GET_META` request is absent or a non-nil
`chan []byte`; other requests do not use `Misc`. -/
def miscOK (req : StreamRequest) : Bool :=
  match req.Op, req.Misc with
  | STREAM_OP_GET_META, .other _ => false
  | STREAM_OP_GET_META, .bytesChan none => false
  | _, _ => true

/-- The requests of a mailbox respect the data model: every completion conduit
belongs to one request only, every `GET_META` reply conduit belongs to one
request only, and a `GET_META` payload is absent or a real reply conduit. -/
def WellFormed (reqs : List StreamRequest) : Prop :=
  (doneChans reqs).Nodup ∧ (miscChans reqs).Nodup ∧ ∀ r ∈ reqs, miscOK r = true

instance (reqs : List StreamRequest) : Decidable (WellFormed reqs) := by
  unfold WellFormed; infer_instance

/-- None of the conduits of the requests has been closed yet. -/
def Fresh {σ : Type} (s : Runtime σ) (reqs : List StreamRequest) : Prop :=
  (∀ c ∈ doneChans reqs, c ∉ s.closedDone) ∧ (∀ c ∈ miscChans reqs, c ∉ s.closedMisc)

/-- No request of the sequence is a `ROLLBACK`. -/
def NoRollback (reqs : List StreamRequest) : Prop :=
  ∀ r ∈ reqs, r.Op ≠ STREAM_OP_ROLLBACK

instance (reqs : List StreamRequest) : Decidable (NoRollback reqs) := by
  unfold NoRollback; infer_instance

/-- The requests in front of the first `ROLLBACK`. -/
def beforeRollback (reqs : List StreamRequest) : List StreamRequest :=
  reqs.takeWhile (fun r => decide (r.Op ≠ STREAM_OP_ROLLBACK))

/-- The requests queued behind the first `ROLLBACK`. -/
def behindRollback (reqs : List StreamRequest) : List StreamRequest :=
  (reqs.dropWhile (fun r => decide (r.Op ≠ STREAM_OP_ROLLBACK))).tail

instance {σ : Type} (s : Runtime σ) (reqs : List StreamRequest) : Decidable (Fresh s reqs) := by
  unfold Fresh; infer_instance

/-- What `Run` sends to a request it rejects after retirement. -/
def rejectEvents (req : StreamRequest) : List Event :=
  match req.DoneCh with
  | some c => [.doneSend c (.pindexAlreadyDone req), .doneClose c]
  | none => []

/-! ## A fake engine, for running the model on concrete inputs -/

/-- State of the fake engine: documents, internal key-value pairs, closed flag. -/
structure FakeEngine where
  docs : List (Bytes × Bytes)
  internal : List (Bytes × Bytes)
  closed : Bool
  deriving DecidableEq, Repr

/-- An empty, open fake engine. -/
def FakeEngine.empty : FakeEngine := { docs := [], internal := [], closed := false }

/-- A fake engine: writes with an empty key fail, `GetInternal` of a key never
set fails, and `GetInternal` returns the value of the latest `SetInternal`. -/
def fakeIndex : BleveIndex FakeEngine where
  Index s id d :=
    if id = [] then (s, some (.engine 1)) else ({ s with docs := (id, d) :: s.docs }, none)
  Delete s id :=
    if id = [] then (s, some (.engine 2))
    else ({ s with docs := s.docs.filter (fun p => p.1 ≠ id) }, none)
  GetInternal s k :=
    match s.internal.lookup k with
    | some v => (s, v, none)
    | none => (s, [], some (.engine 3))
  SetInternal s k v :=
    if k = [] then (s, some (.engine 4))
    else ({ s with internal := (k, v) :: s.internal }, none)
  Close s := { s with closed := true }

/-- A partition backed by bleve. -/
def blevePIndex : PIndex := { IndexType := "bleve", Path := "/data/p0" }

/-- A partition of an unknown index type. -/
def otherPIndex : PIndex := { IndexType := "memory", Path := "/data/p1" }

/-- Shorthand for a request. -/
def mkReq (op : StreamOp) (key val : Bytes) (misc : MiscVal) (done : Option ChanId) :
    StreamRequest :=
  { Op := op, Partition := "p0", Key := key, Val := val, Misc := misc, DoneCh := done }

/-! ## Traces of serviced requests, trace shapes, sample inputs -/

section TraceDefs

variable {σ : Type}

/-- The completion events of one serviced request: the error, if any, then the
close. -/
def doneSignal (c : ChanId) (sent : Option GoError) : List Event :=
  match sent with
  | some e => [.doneSend c e, .doneClose c]
  | none => [.doneClose c]

/-- The completion events of one serviced request, none for a nil conduit. -/
def doneEvents (req : StreamRequest) (sent : Option GoError) : List Event :=
  match req.DoneCh with
  | some c => doneSignal c sent
  | none => []

/-- The reply conduit events of one `GET_META`: the bytes unless `GetInternal`
failed, then the close. -/
def miscSignal (c : ChanId) (v : Bytes) (gerr : Option GoError) : List Event :=
  match gerr with
  | none => [.miscSend c v, .miscClose c]
  | some _ => [.miscClose c]

/-- The reply conduit events of one serviced request. -/
def miscEvents (bindex : BleveIndex σ) (impl : σ) (req : StreamRequest) : List Event :=
  match miscChanOf req with
  | some c =>
    miscSignal c (bindex.GetInternal impl req.Key).2.1 (bindex.GetInternal impl req.Key).2.2
  | none => []

/-- The value of the loop variable `err` when the switch is left. -/
def loopErr (bindex : BleveIndex σ) (impl : σ) (req : StreamRequest) : Option GoError :=
  match req.Op with
  | STREAM_OP_UPDATE => (bindex.Index impl req.Key req.Val).2
  | STREAM_OP_DELETE => (bindex.Delete impl req.Key).2
  | STREAM_OP_SET_META => (bindex.SetInternal impl req.Key req.Val).2
  | _ => none

/-- The engine state after the engine call made for a request. -/
def implAfter (bindex : BleveIndex σ) (impl : σ) (req : StreamRequest) : σ :=
  match req.Op with
  | STREAM_OP_UPDATE => (bindex.Index impl req.Key req.Val).1
  | STREAM_OP_DELETE => (bindex.Delete impl req.Key).1
  | STREAM_OP_GET_META => (bindex.GetInternal impl req.Key).1
  | STREAM_OP_SET_META => (bindex.SetInternal impl req.Key req.Val).1
  | STREAM_OP_ROLLBACK => bindex.Close impl
  | _ => impl

/-- The events of a request serviced without panic (not a `ROLLBACK`): the engine
call of the op, the reply conduit events, then the completion events. -/
def servedEvents (bindex : BleveIndex σ) (impl : σ) (req : StreamRequest) : List Event :=
  (engineCallOf req).toList ++ miscEvents bindex impl req ++
    doneEvents req (loopErr bindex impl req)

/-- The events of the `ROLLBACK` case. -/
def rollbackEvents (pindex : PIndex) (req : StreamRequest) : List Event :=
  [.engineClose, .removeAll pindex.Path] ++ doneEvents req none ++
    [.mgrClosePIndex pindex, .mgrKick "stream-rollback"]

/-- The runtime after a request has been serviced: the engine has made its call
and the conduits of the request are closed. -/
def Runtime.served (bindex : BleveIndex σ) (s : Runtime σ) (req : StreamRequest) :
    Runtime σ :=
  { impl := implAfter bindex s.impl req
    closedDone := req.DoneCh.toList ++ s.closedDone
    closedMisc := (miscChanOf req).toList ++ s.closedMisc }

/-- The events of a sequence of requests serviced one after the other. -/
def servedTrace (bindex : BleveIndex σ) : σ → List StreamRequest → List Event
  | _, [] => []
  | impl, r :: rest =>
    servedEvents bindex impl r ++ servedTrace bindex (implAfter bindex impl r) rest

/-- The runtime after a sequence of requests has been serviced. -/
def Runtime.servedAll (bindex : BleveIndex σ) (s : Runtime σ) (reqs : List StreamRequest) :
    Runtime σ :=
  reqs.foldl (fun t r => t.served bindex r) s

/-- A trace without teardown or manager effects. -/
def Quiet (tr : List Event) : Prop := ∀ e ∈ tr, e.isLifecycle = false

/-- A trace whose first teardown or manager effect, if any, is the engine close. -/
def Guarded (tr : List Event) : Prop :=
  Quiet tr ∨ ∃ a tl, tr = a ++ Event.engineClose :: tl ∧ Quiet a

/-- No removal of a path comes in front of the engine close. -/
def CloseBeforeRemove (tr : List Event) : Prop :=
  ∀ pre p post, tr = pre ++ Event.removeAll p :: post → Event.engineClose ∈ pre

/-- Outcome of a loop body that made no teardown effect. -/
def QuietExec : Exec σ LoopExit → Prop
  | .panic evs _ => Quiet evs
  | .ok _ evs none => Quiet evs
  | .ok _ _ (some _) => False

/-- Outcome of a loop body: quiet and going on, or a rollback. -/
def BodyShape : Exec σ LoopExit → Prop
  | .panic evs _ => Quiet evs ∨ ∃ tl, evs = Event.engineClose :: tl
  | .ok _ evs none => Quiet evs
  | .ok _ evs (some x) => x = (false, false, none) ∧ ∃ tl, evs = Event.engineClose :: tl

/-- Outcome of the loop: both flags set and a quiet trace, or both flags cleared
and a trace whose first teardown effect is the engine close. -/
def StreamShape : Exec σ StreamResult → Prop
  | .panic evs _ => Guarded evs
  | .ok _ evs res =>
    (res.closeImpl = true ∧ res.cleanupPath = true ∧ Quiet evs) ∨
    (res.closeImpl = false ∧ res.cleanupPath = false ∧
      ∃ a tl, evs = a ++ Event.engineClose :: tl ∧ Quiet a)

/-- An engine whose `GetInternal(k)` returns, without error, the bytes of the
latest successful `SetInternal(k, v)`: a successful set is read back, and no
other call (`Index`, `Delete`, `GetInternal`, `SetInternal` on another key)
changes what `GetInternal(k)` returns. -/
structure MetaRoundTrip (bindex : BleveIndex σ) : Prop where
  set_get : ∀ impl k v, (bindex.SetInternal impl k v).2 = none →
    (bindex.GetInternal (bindex.SetInternal impl k v).1 k).2 = (v, none)
  index_keeps : ∀ impl id d k,
    (bindex.GetInternal (bindex.Index impl id d).1 k).2 = (bindex.GetInternal impl k).2
  delete_keeps : ∀ impl id k,
    (bindex.GetInternal (bindex.Delete impl id).1 k).2 = (bindex.GetInternal impl k).2
  get_keeps : ∀ impl k1 k,
    (bindex.GetInternal (bindex.GetInternal impl k1).1 k).2 = (bindex.GetInternal impl k).2
  set_keeps : ∀ impl k1 v k, k1 ≠ k →
    (bindex.GetInternal (bindex.SetInternal impl k1 v).1 k).2 = (bindex.GetInternal impl k).2

/-- A mailbox with failing calls, metadata traffic and requests behind a
`ROLLBACK`. -/
def sampleStream : List StreamRequest :=
  [mkReq STREAM_OP_UPDATE [1] [9] .nil (some 0),
   mkReq STREAM_OP_UPDATE [] [9] .nil (some 1),
   mkReq STREAM_OP_SET_META [5] [7] .nil (some 2),
   mkReq STREAM_OP_GET_META [5] [] (.bytesChan (some 0)) (some 3),
   mkReq STREAM_OP_GET_META [6] [] (.bytesChan (some 1)) (some 4),
   mkReq STREAM_OP_ROLLBACK [] [] .nil (some 5),
   mkReq STREAM_OP_UPDATE [2] [9] .nil (some 6),
   mkReq STREAM_OP_ROLLBACK [] [] .nil none]

/-- A mailbox without `ROLLBACK`. -/
def gracefulStream : List StreamRequest :=
  [mkReq STREAM_OP_UPDATE [1] [9] .nil (some 0),
   mkReq STREAM_OP_DELETE [] [] .nil (some 1),
   mkReq STREAM_OP_NOOP [] [] .nil none,
   mkReq STREAM_OP_GET_META [6] [] (.bytesChan (some 0)) (some 2)]

end TraceDefs

/-! ## Basic facts about `Exec` -/

section ExecLemmas

variable {σ α : Type}

@[simp] theorem Exec.after_ok (pre : List Event) (s : Runtime σ) (evs : List Event) (a : α) :
    (Exec.ok s evs a).after pre = Exec.ok s (pre ++ evs) a := rfl

@[simp] theorem Exec.after_panic (pre evs : List Event) (msg : GoPanic) :
    (Exec.panic evs msg : Exec σ α).after pre = Exec.panic (pre ++ evs) msg := rfl

@[simp] theorem Exec.events_ok (s : Runtime σ) (evs : List Event) (a : α) :
    (Exec.ok s evs a).events = evs := rfl

@[simp] theorem Exec.events_panic (evs : List Event) (msg : GoPanic) :
    (Exec.panic evs msg : Exec σ α).events = evs := rfl

@[simp] theorem Exec.events_after (pre : List Event) (x : Exec σ α) :
    (x.after pre).events = pre ++ x.events := by
  cases x <;> rfl

@[simp] theorem Exec.panicked_after (pre : List Event) (x : Exec σ α) :
    (x.after pre).panicked = x.panicked := by
  cases x <;> rfl

@[simp] theorem Exec.after_nil (x : Exec σ α) : x.after [] = x := by
  cases x <;> rfl

@[simp] theorem Exec.after_after (p q : List Event) (x : Exec σ α) :
    (x.after q).after p = x.after (p ++ q) := by
  cases x <;> simp

end ExecLemmas

/-! ## One pass through the loop body -/

section Body

variable {σ : Type}

theorem signalDone_ok (impl : σ) (cd cm : List ChanId) (req : StreamRequest)
    (err : Option GoError) (hd : ∀ c, req.DoneCh = some c → c ∉ cd) :
    signalDone { impl := impl, closedDone := cd, closedMisc := cm } req err =
      .ok { impl := impl, closedDone := req.DoneCh.toList ++ cd, closedMisc := cm }
        (doneEvents req err) none := by
  unfold signalDone doneEvents doneSignal
  rcases hdc : req.DoneCh with _ | c
  · simp
  · have hc := hd c hdc
    cases err <;> simp [hc]

/-- A request other than `ROLLBACK` whose conduits are live is serviced without
panic and the loop goes on. -/
theorem loopBody_ok (bindex : BleveIndex σ) (pindex : PIndex) (s : Runtime σ)
    (req : StreamRequest) (hop : req.Op ≠ STREAM_OP_ROLLBACK) (hmisc : miscOK req = true)
    (hd : ∀ c, req.DoneCh = some c → c ∉ s.closedDone)
    (hm : ∀ c, miscChanOf req = some c → c ∉ s.closedMisc) :
    loopBody bindex pindex s req =
      .ok (s.served bindex req) (servedEvents bindex s.impl req) none := by
  rcases hreq : req.Op with _ | _ | _ | _ | _ | _ | _
  · simp [loopBody, hreq, signalDone_ok _ _ _ req _ hd, Runtime.served, miscChanOf,
      servedEvents, engineCallOf, miscEvents, loopErr, implAfter]
  · simp [loopBody, hreq, signalDone_ok _ _ _ req _ hd, Runtime.served, miscChanOf,
      servedEvents, engineCallOf, miscEvents, loopErr, implAfter]
  · simp [loopBody, hreq, signalDone_ok _ _ _ req _ hd, Runtime.served, miscChanOf,
      servedEvents, engineCallOf, miscEvents, loopErr, implAfter]
  · simp [loopBody, hreq, signalDone_ok _ _ _ req _ hd, Runtime.served, miscChanOf,
      servedEvents, engineCallOf, miscEvents, loopErr, implAfter]
  · exact absurd hreq hop
  · rcases hmv : req.Misc with _ | mc | tag
    · simp [loopBody, getMeta, hreq, hmv, signalDone_ok _ _ _ req _ hd, Runtime.served,
        miscChanOf, servedEvents, engineCallOf, miscEvents, loopErr, implAfter]
    · rcases mc with _ | mc
      · simp [miscOK, hreq, hmv] at hmisc
      · have hlive : mc ∉ s.closedMisc := hm mc (by simp [miscChanOf, hreq, hmv])
        rcases hg : (bindex.GetInternal s.impl req.Key).2.2 with _ | ge
        · simp [loopBody, getMeta, hreq, hmv, hg, hlive, signalDone_ok _ _ _ req _ hd,
            Runtime.served, miscChanOf, servedEvents, engineCallOf, miscEvents, loopErr,
            implAfter, miscSignal]
        · simp [loopBody, getMeta, hreq, hmv, hg, hlive, signalDone_ok _ _ _ req _ hd,
            Runtime.served, miscChanOf, servedEvents, engineCallOf, miscEvents, loopErr,
            implAfter, miscSignal]
    · simp [miscOK, hreq, hmv] at hmisc
  · simp [loopBody, hreq, signalDone_ok _ _ _ req _ hd, Runtime.served, miscChanOf,
      servedEvents, engineCallOf, miscEvents, loopErr, implAfter]

/-- A `ROLLBACK` whose completion conduit is live tears the partition down,
signals, calls the manager and makes the loop return `(false, false, nil)`. -/
theorem loopBody_rollback (bindex : BleveIndex σ) (pindex : PIndex) (s : Runtime σ)
    (req : StreamRequest) (hop : req.Op = STREAM_OP_ROLLBACK)
    (hd : ∀ c, req.DoneCh = some c → c ∉ s.closedDone) :
    loopBody bindex pindex s req =
      .ok (s.served bindex req) (rollbackEvents pindex req) (some (false, false, none)) := by
  rcases hdc : req.DoneCh with _ | c
  · simp [loopBody, rollback, hop, hdc, Runtime.served, miscChanOf, rollbackEvents,
      doneEvents, implAfter]
  · have hc := hd c hdc
    simp [loopBody, rollback, hop, hdc, hc, Runtime.served, miscChanOf, rollbackEvents,
      doneEvents, doneSignal, implAfter]

end Body

/-! ## The whole loop -/

section Loop

variable {σ : Type}

theorem doneChans_cons (r : StreamRequest) (rest : List StreamRequest) :
    doneChans (r :: rest) = r.DoneCh.toList ++ doneChans rest := by
  unfold doneChans
  rcases h : r.DoneCh with _ | c <;> simp [List.filterMap_cons, h]

theorem miscChans_cons (r : StreamRequest) (rest : List StreamRequest) :
    miscChans (r :: rest) = (miscChanOf r).toList ++ miscChans rest := by
  unfold miscChans
  rcases h : miscChanOf r with _ | c <;> simp [List.filterMap_cons, h]

theorem doneChans_append (xs ys : List StreamRequest) :
    doneChans (xs ++ ys) = doneChans xs ++ doneChans ys := by
  simp [doneChans]

theorem miscChans_append (xs ys : List StreamRequest) :
    miscChans (xs ++ ys) = miscChans xs ++ miscChans ys := by
  simp [miscChans]

theorem mem_doneChans {c : ChanId} {reqs : List StreamRequest} :
    c ∈ doneChans reqs ↔ ∃ r ∈ reqs, r.DoneCh = some c := by
  simp [doneChans]

theorem WellFormed.tail {r : StreamRequest} {rest : List StreamRequest}
    (h : WellFormed (r :: rest)) : WellFormed rest := by
  obtain ⟨h1, h2, h3⟩ := h
  rw [doneChans_cons] at h1
  rw [miscChans_cons] at h2
  exact ⟨(List.nodup_append.1 h1).2.1, (List.nodup_append.1 h2).2.1,
    fun x hx => h3 x (List.mem_cons_of_mem _ hx)⟩

theorem WellFormed.of_append_left {xs ys : List StreamRequest}
    (h : WellFormed (xs ++ ys)) : WellFormed xs := by
  obtain ⟨h1, h2, h3⟩ := h
  rw [doneChans_append] at h1
  rw [miscChans_append] at h2
  exact ⟨(List.nodup_append.1 h1).1, (List.nodup_append.1 h2).1,
    fun x hx => h3 x (List.mem_append_left _ hx)⟩

theorem WellFormed.of_append_right {xs ys : List StreamRequest}
    (h : WellFormed (xs ++ ys)) : WellFormed ys := by
  obtain ⟨h1, h2, h3⟩ := h
  rw [doneChans_append] at h1
  rw [miscChans_append] at h2
  exact ⟨(List.nodup_append.1 h1).2.1, (List.nodup_append.1 h2).2.1,
    fun x hx => h3 x (List.mem_append_right _ hx)⟩

theorem Fresh.head_done {s : Runtime σ} {r : StreamRequest} {rest : List StreamRequest}
    (h : Fresh s (r :: rest)) : ∀ c, r.DoneCh = some c → c ∉ s.closedDone := by
  intro c hc
  apply h.1 c
  rw [doneChans_cons, hc]
  simp

theorem Fresh.head_misc {s : Runtime σ} {r : StreamRequest} {rest : List StreamRequest}
    (h : Fresh s (r :: rest)) : ∀ c, miscChanOf r = some c → c ∉ s.closedMisc := by
  intro c hc
  apply h.2 c
  rw [miscChans_cons, hc]
  simp

theorem Fresh.served (bindex : BleveIndex σ) {s : Runtime σ} {r : StreamRequest}
    {rest : List StreamRequest} (hw : WellFormed (r :: rest)) (h : Fresh s (r :: rest)) :
    Fresh (s.served bindex r) rest := by
  obtain ⟨h1, h2, _⟩ := hw
  rw [doneChans_cons] at h1
  rw [miscChans_cons] at h2
  have d1 := (List.nodup_append.1 h1).2.2
  have d2 := (List.nodup_append.1 h2).2.2
  constructor
  · intro c hc hmem
    simp only [Runtime.served, List.mem_append] at hmem
    rcases hmem with hmem | hmem
    · exact d1 hmem hc
    · exact h.1 c (by rw [doneChans_cons]; exact List.mem_append_right _ hc) hmem
  · intro c hc hmem
    simp only [Runtime.served, List.mem_append] at hmem
    rcases hmem with hmem | hmem
    · exact d2 hmem hc
    · exact h.2 c (by rw [miscChans_cons]; exact List.mem_append_right _ hc) hmem

/-- A well-formed sequence without `ROLLBACK` is serviced to the end: the loop
leaves by the closed stream and returns `(true, true, nil)`. -/
theorem RunBleveStream_noRollback (bindex : BleveIndex σ) (pindex : PIndex)
    (reqs : List StreamRequest) (s : Runtime σ) (hnr : NoRollback reqs)
    (hw : WellFormed reqs) (hf : Fresh s reqs) :
    RunBleveStream bindex pindex s reqs =
      .ok (s.servedAll bindex reqs) (servedTrace bindex s.impl reqs)
        ⟨true, true, none, []⟩ := by
  induction reqs generalizing s with
  | nil => simp [RunBleveStream, Runtime.servedAll, servedTrace]
  | cons r rest ih =>
    have hop : r.Op ≠ STREAM_OP_ROLLBACK := hnr r (List.mem_cons_self _ _)
    have hb := loopBody_ok bindex pindex s r hop (hw.2.2 r (List.mem_cons_self _ _))
      hf.head_done hf.head_misc
    have hrest := ih (s.served bindex r)
      (fun x hx => hnr x (List.mem_cons_of_mem _ hx)) hw.tail (Fresh.served bindex hw hf)
    simp only [RunBleveStream, hb, hrest, Exec.after_ok, Runtime.servedAll, servedTrace,
      List.foldl_cons, List.cons_append, List.append_assoc]
    rfl

theorem Fresh.left_part {s : Runtime σ} {xs ys : List StreamRequest}
    (h : Fresh s (xs ++ ys)) : Fresh s xs := by
  constructor
  · intro c hc
    exact h.1 c (by rw [doneChans_append]; exact List.mem_append_left _ hc)
  · intro c hc
    exact h.2 c (by rw [miscChans_append]; exact List.mem_append_left _ hc)

/-- A sequence that is well-formed up to and including its first `ROLLBACK` is
serviced up to it; there the loop returns `(false, false, nil)` and leaves the
rest of the stream unread. -/
theorem RunBleveStream_rollback_served (bindex : BleveIndex σ) (pindex : PIndex)
    (pre : List StreamRequest) (rb : StreamRequest) (post : List StreamRequest)
    (s : Runtime σ) (hnr : NoRollback pre) (hrb : rb.Op = STREAM_OP_ROLLBACK)
    (hw : WellFormed (pre ++ [rb])) (hf : Fresh s (pre ++ [rb])) :
    RunBleveStream bindex pindex s (pre ++ rb :: post) =
      .ok ((s.servedAll bindex pre).served bindex rb)
        (servedTrace bindex s.impl pre ++ rollbackEvents pindex rb)
        ⟨false, false, none, post⟩ := by
  induction pre generalizing s with
  | nil =>
    have hf0 : Fresh s (rb :: []) := hf
    have hb := loopBody_rollback bindex pindex s rb hrb hf0.head_done
    simp [RunBleveStream, hb, Runtime.servedAll, servedTrace]
  | cons r rest ih =>
    have hop : r.Op ≠ STREAM_OP_ROLLBACK := hnr r (List.mem_cons_self _ _)
    have hw1 : WellFormed (r :: (rest ++ [rb])) := hw
    have hf1 : Fresh s (r :: (rest ++ [rb])) := hf
    have hb := loopBody_ok bindex pindex s r hop (hw1.2.2 r (List.mem_cons_self _ _))
      hf1.head_done hf1.head_misc
    have hrest := ih (s.served bindex r)
      (fun x hx => hnr x (List.mem_cons_of_mem _ hx)) hw1.tail (Fresh.served bindex hw1 hf1)
    rw [List.cons_append, RunBleveStream, hb]
    simp only [hrest, Exec.after_ok, Runtime.servedAll, servedTrace, List.foldl_cons,
      List.append_assoc]
    rfl

/-- A well-formed sequence is serviced up to its first `ROLLBACK`, where the loop
returns `(false, false, nil)` and leaves the rest of the stream unread. -/
theorem RunBleveStream_rollback (bindex : BleveIndex σ) (pindex : PIndex)
    (pre : List StreamRequest) (rb : StreamRequest) (post : List StreamRequest)
    (s : Runtime σ) (hnr : NoRollback pre) (hrb : rb.Op = STREAM_OP_ROLLBACK)
    (hw : WellFormed (pre ++ rb :: post)) (hf : Fresh s (pre ++ rb :: post)) :
    RunBleveStream bindex pindex s (pre ++ rb :: post) =
      .ok ((s.servedAll bindex pre).served bindex rb)
        (servedTrace bindex s.impl pre ++ rollbackEvents pindex rb)
        ⟨false, false, none, post⟩ := by
  have he : pre ++ rb :: post = (pre ++ [rb]) ++ post := by simp
  rw [he] at hw hf
  exact RunBleveStream_rollback_served bindex pindex pre rb post s hnr hrb
    hw.of_append_left hf.left_part

theorem noRollback_beforeRollback (reqs : List StreamRequest) :
    NoRollback (beforeRollback reqs) := by
  intro r hr
  have := List.mem_takeWhile_imp hr
  simpa using this

theorem beforeRollback_of_noRollback {reqs : List StreamRequest} (h : NoRollback reqs) :
    beforeRollback reqs = reqs := by
  unfold beforeRollback
  rw [List.takeWhile_eq_self_iff]
  intro r hr
  simpa using h r hr

theorem beforeRollback_split (pre : List StreamRequest) (rb : StreamRequest)
    (post : List StreamRequest) (hnr : NoRollback pre) (hrb : rb.Op = STREAM_OP_ROLLBACK) :
    beforeRollback (pre ++ rb :: post) = pre ∧ behindRollback (pre ++ rb :: post) = post := by
  unfold beforeRollback behindRollback
  induction pre with
  | nil => simp [hrb]
  | cons r rest ih =>
    have hr : r.Op ≠ STREAM_OP_ROLLBACK := hnr r (List.mem_cons_self _ _)
    have := ih (fun x hx => hnr x (List.mem_cons_of_mem _ hx))
    simpa [List.takeWhile_cons, List.dropWhile_cons, hr] using this

/-- A sequence with a `ROLLBACK` splits at the first one. -/
theorem split_at_rollback (reqs : List StreamRequest)
    (h : ∃ r ∈ reqs, r.Op = STREAM_OP_ROLLBACK) :
    ∃ rb, rb.Op = STREAM_OP_ROLLBACK ∧
      reqs = beforeRollback reqs ++ rb :: behindRollback reqs := by
  induction reqs with
  | nil => simp at h
  | cons r rest ih =>
    by_cases hr : r.Op = STREAM_OP_ROLLBACK
    · exact ⟨r, hr, by simp [beforeRollback, behindRollback, hr]⟩
    · obtain ⟨x, hx, hxop⟩ := h
      have hx1 : x ∈ rest := by
        rcases List.mem_cons.1 hx with e | e
        · exact absurd (e ▸ hxop) hr
        · exact e
      obtain ⟨rb, hrb, hsplit⟩ := ih ⟨x, hx1, hxop⟩
      refine ⟨rb, hrb, ?_⟩
      have h1 : beforeRollback (r :: rest) = r :: beforeRollback rest := by
        simp [beforeRollback, List.takeWhile_cons, hr]
      have h2 : behindRollback (r :: rest) = behindRollback rest := by
        simp [behindRollback, List.dropWhile_cons, hr]
      rw [h1, h2, List.cons_append, ← hsplit]

theorem servedAll_closedDone (bindex : BleveIndex σ) (reqs : List StreamRequest)
    (s : Runtime σ) (c : ChanId) :
    c ∈ (s.servedAll bindex reqs).closedDone ↔ c ∈ doneChans reqs ∨ c ∈ s.closedDone := by
  induction reqs generalizing s with
  | nil => simp [Runtime.servedAll, doneChans]
  | cons r rest ih =>
    have := ih (s.served bindex r)
    simp only [Runtime.servedAll, List.foldl_cons] at this ⊢
    rw [this, doneChans_cons]
    simp only [Runtime.served, List.mem_append]
    tauto

/-- Rejecting requests whose completion conduits are live and distinct does not
panic; each conduit gets the error and is closed. -/
theorem rejectAll_ok (reqs : List StreamRequest) (s : Runtime σ)
    (hnd : (doneChans reqs).Nodup) (hf : ∀ c ∈ doneChans reqs, c ∉ s.closedDone) :
    ∃ t, rejectAll s reqs = .ok t (reqs.flatMap rejectEvents) () := by
  induction reqs generalizing s with
  | nil => exact ⟨s, by simp [rejectAll]⟩
  | cons r rest ih =>
    rw [doneChans_cons] at hnd hf
    have hnd1 := List.nodup_append.1 hnd
    rcases hdc : r.DoneCh with _ | c
    · obtain ⟨t, ht⟩ := ih s hnd1.2.1 (fun c hc => hf c (List.mem_append_right _ hc))
      exact ⟨t, by simp [rejectAll, hdc, ht, rejectEvents]⟩
    · have hc : c ∉ s.closedDone := hf c (by simp [hdc])
      obtain ⟨t, ht⟩ := ih { s with closedDone := c :: s.closedDone } hnd1.2.1 (by
        intro d hd hmem
        rcases List.mem_cons.1 hmem with e | e
        · exact hnd1.2.2 (by simp [hdc, e]) hd
        · exact hf d (List.mem_append_right _ hd) e)
      exact ⟨t, by simp [rejectAll, hdc, hc, ht, rejectEvents]⟩

end Loop

/-! ## Projections of the traces -/

section Traces

variable {σ : Type}

theorem doneEvents_filter_write (req : StreamRequest) (sent : Option GoError) :
    (doneEvents req sent).filter Event.isWrite = [] := by
  unfold doneEvents doneSignal
  rcases req.DoneCh with _ | c <;> cases sent <;> simp [Event.isWrite]

theorem doneEvents_filter_engine (req : StreamRequest) (sent : Option GoError) :
    (doneEvents req sent).filter Event.isEngineCall = [] := by
  unfold doneEvents doneSignal
  rcases req.DoneCh with _ | c <;> cases sent <;> simp [Event.isEngineCall]

theorem doneEvents_filter_lifecycle (req : StreamRequest) (sent : Option GoError) :
    (doneEvents req sent).filter Event.isLifecycle = [] := by
  unfold doneEvents doneSignal
  rcases req.DoneCh with _ | c <;> cases sent <;> simp [Event.isLifecycle]

theorem doneEvents_filter_onMisc (req : StreamRequest) (sent : Option GoError) (c : ChanId) :
    (doneEvents req sent).filter (Event.onMisc c) = [] := by
  unfold doneEvents doneSignal
  rcases req.DoneCh with _ | d <;> cases sent <;> simp [Event.onMisc]

theorem doneEvents_filter_onDone (req : StreamRequest) (sent : Option GoError) (c : ChanId)
    (h : req.DoneCh = some c) :
    (doneEvents req sent).filter (Event.onDone c) = doneSignal c sent := by
  unfold doneEvents doneSignal
  rw [h]
  cases sent <;> simp [Event.onDone]

theorem doneEvents_filter_onDone_ne (req : StreamRequest) (sent : Option GoError)
    (c : ChanId) (h : req.DoneCh ≠ some c) :
    (doneEvents req sent).filter (Event.onDone c) = [] := by
  unfold doneEvents doneSignal
  rcases hd : req.DoneCh with _ | d
  · simp
  · have hne : d ≠ c := fun e => h (by rw [hd, e])
    cases sent <;> simp [Event.onDone, hne]

theorem miscEvents_filter_write (bindex : BleveIndex σ) (impl : σ) (req : StreamRequest) :
    (miscEvents bindex impl req).filter Event.isWrite = [] := by
  unfold miscEvents miscSignal
  rcases miscChanOf req with _ | c
  · simp
  · rcases (bindex.GetInternal impl req.Key).2.2 with _ | e <;> simp [Event.isWrite]

theorem miscEvents_filter_engine (bindex : BleveIndex σ) (impl : σ) (req : StreamRequest) :
    (miscEvents bindex impl req).filter Event.isEngineCall = [] := by
  unfold miscEvents miscSignal
  rcases miscChanOf req with _ | c
  · simp
  · rcases (bindex.GetInternal impl req.Key).2.2 with _ | e <;> simp [Event.isEngineCall]

theorem miscEvents_filter_lifecycle (bindex : BleveIndex σ) (impl : σ) (req : StreamRequest) :
    (miscEvents bindex impl req).filter Event.isLifecycle = [] := by
  unfold miscEvents miscSignal
  rcases miscChanOf req with _ | c
  · simp
  · rcases (bindex.GetInternal impl req.Key).2.2 with _ | e <;> simp [Event.isLifecycle]

theorem miscEvents_filter_onDone (bindex : BleveIndex σ) (impl : σ) (req : StreamRequest)
    (c : ChanId) : (miscEvents bindex impl req).filter (Event.onDone c) = [] := by
  unfold miscEvents miscSignal
  rcases miscChanOf req with _ | d
  · simp
  · rcases (bindex.GetInternal impl req.Key).2.2 with _ | e <;> simp [Event.onDone]

theorem miscEvents_filter_onMisc (bindex : BleveIndex σ) (impl : σ) (req : StreamRequest)
    (c : ChanId) (h : miscChanOf req = some c) :
    (miscEvents bindex impl req).filter (Event.onMisc c) =
      miscSignal c (bindex.GetInternal impl req.Key).2.1
        (bindex.GetInternal impl req.Key).2.2 := by
  unfold miscEvents miscSignal
  rw [h]
  rcases (bindex.GetInternal impl req.Key).2.2 with _ | e <;> simp [Event.onMisc]

theorem miscEvents_filter_onMisc_ne (bindex : BleveIndex σ) (impl : σ) (req : StreamRequest)
    (c : ChanId) (h : miscChanOf req ≠ some c) :
    (miscEvents bindex impl req).filter (Event.onMisc c) = [] := by
  unfold miscEvents miscSignal
  rcases hm : miscChanOf req with _ | d
  · simp
  · have hne : d ≠ c := fun e => h (by rw [hm, e])
    rcases (bindex.GetInternal impl req.Key).2.2 with _ | e <;> simp [Event.onMisc, hne]

theorem engineCall_filter_write (req : StreamRequest) :
    (engineCallOf req).toList.filter Event.isWrite = (writeCallOf req).toList := by
  unfold engineCallOf writeCallOf
  rcases req.Op with _ | _ | _ | _ | _ | _ | _ <;> simp [Event.isWrite]

theorem engineCall_filter_engine (req : StreamRequest) :
    (engineCallOf req).toList.filter Event.isEngineCall = (engineCallOf req).toList := by
  unfold engineCallOf
  rcases req.Op with _ | _ | _ | _ | _ | _ | _ <;> simp [Event.isEngineCall]

theorem engineCall_filter_lifecycle (req : StreamRequest) :
    (engineCallOf req).toList.filter Event.isLifecycle = [] := by
  unfold engineCallOf
  rcases req.Op with _ | _ | _ | _ | _ | _ | _ <;> simp [Event.isLifecycle]

theorem engineCall_filter_onDone (req : StreamRequest) (c : ChanId) :
    (engineCallOf req).toList.filter (Event.onDone c) = [] := by
  unfold engineCallOf
  rcases req.Op with _ | _ | _ | _ | _ | _ | _ <;> simp [Event.onDone]

theorem engineCall_filter_onMisc (req : StreamRequest) (c : ChanId) :
    (engineCallOf req).toList.filter (Event.onMisc c) = [] := by
  unfold engineCallOf
  rcases req.Op with _ | _ | _ | _ | _ | _ | _ <;> simp [Event.onMisc]

theorem servedEvents_filter_write (bindex : BleveIndex σ) (impl : σ) (req : StreamRequest) :
    (servedEvents bindex impl req).filter Event.isWrite = (writeCallOf req).toList := by
  simp [servedEvents, engineCall_filter_write, miscEvents_filter_write,
    doneEvents_filter_write]

theorem servedEvents_filter_engine (bindex : BleveIndex σ) (impl : σ) (req : StreamRequest) :
    (servedEvents bindex impl req).filter Event.isEngineCall = (engineCallOf req).toList := by
  simp [servedEvents, engineCall_filter_engine, miscEvents_filter_engine,
    doneEvents_filter_engine]

theorem servedEvents_filter_lifecycle (bindex : BleveIndex σ) (impl : σ)
    (req : StreamRequest) : (servedEvents bindex impl req).filter Event.isLifecycle = [] := by
  simp [servedEvents, engineCall_filter_lifecycle, miscEvents_filter_lifecycle,
    doneEvents_filter_lifecycle]

theorem servedEvents_filter_onDone (bindex : BleveIndex σ) (impl : σ) (req : StreamRequest)
    (c : ChanId) (h : req.DoneCh = some c) :
    (servedEvents bindex impl req).filter (Event.onDone c) =
      doneSignal c (loopErr bindex impl req) := by
  simp [servedEvents, engineCall_filter_onDone, miscEvents_filter_onDone,
    doneEvents_filter_onDone _ _ c h]

theorem servedEvents_filter_onDone_ne (bindex : BleveIndex σ) (impl : σ)
    (req : StreamRequest) (c : ChanId) (h : req.DoneCh ≠ some c) :
    (servedEvents bindex impl req).filter (Event.onDone c) = [] := by
  simp [servedEvents, engineCall_filter_onDone, miscEvents_filter_onDone,
    doneEvents_filter_onDone_ne _ _ c h]

theorem servedEvents_filter_onMisc (bindex : BleveIndex σ) (impl : σ) (req : StreamRequest)
    (c : ChanId) (h : miscChanOf req = some c) :
    (servedEvents bindex impl req).filter (Event.onMisc c) =
      miscSignal c (bindex.GetInternal impl req.Key).2.1
        (bindex.GetInternal impl req.Key).2.2 := by
  simp [servedEvents, engineCall_filter_onMisc, miscEvents_filter_onMisc _ _ _ c h,
    doneEvents_filter_onMisc]

theorem servedEvents_filter_onMisc_ne (bindex : BleveIndex σ) (impl : σ)
    (req : StreamRequest) (c : ChanId) (h : miscChanOf req ≠ some c) :
    (servedEvents bindex impl req).filter (Event.onMisc c) = [] := by
  simp [servedEvents, engineCall_filter_onMisc, miscEvents_filter_onMisc_ne _ _ _ c h,
    doneEvents_filter_onMisc]

theorem servedTrace_filter_write (bindex : BleveIndex σ) (reqs : List StreamRequest)
    (impl : σ) :
    (servedTrace bindex impl reqs).filter Event.isWrite = reqs.filterMap writeCallOf := by
  induction reqs generalizing impl with
  | nil => simp [servedTrace]
  | cons r rest ih =>
    rw [servedTrace, List.filter_append, servedEvents_filter_write, ih]
    rcases h : writeCallOf r with _ | e <;> simp [List.filterMap_cons, h]

theorem servedTrace_filter_engine (bindex : BleveIndex σ) (reqs : List StreamRequest)
    (impl : σ) :
    (servedTrace bindex impl reqs).filter Event.isEngineCall =
      reqs.filterMap engineCallOf := by
  induction reqs generalizing impl with
  | nil => simp [servedTrace]
  | cons r rest ih =>
    rw [servedTrace, List.filter_append, servedEvents_filter_engine, ih]
    rcases h : engineCallOf r with _ | e <;> simp [List.filterMap_cons, h]

theorem servedTrace_filter_lifecycle (bindex : BleveIndex σ) (reqs : List StreamRequest)
    (impl : σ) : (servedTrace bindex impl reqs).filter Event.isLifecycle = [] := by
  induction reqs generalizing impl with
  | nil => simp [servedTrace]
  | cons r rest ih =>
    rw [servedTrace, List.filter_append, servedEvents_filter_lifecycle, ih]
    rfl

theorem servedTrace_filter_onDone_ne (bindex : BleveIndex σ) (reqs : List StreamRequest)
    (impl : σ) (c : ChanId) (h : c ∉ doneChans reqs) :
    (servedTrace bindex impl reqs).filter (Event.onDone c) = [] := by
  induction reqs generalizing impl with
  | nil => simp [servedTrace]
  | cons r rest ih =>
    rw [doneChans_cons, List.mem_append, not_or] at h
    have hr : r.DoneCh ≠ some c := fun e => h.1 (by simp [e])
    rw [servedTrace, List.filter_append, servedEvents_filter_onDone_ne _ _ _ c hr, ih _ h.2]
    rfl

/-- In the trace of a serviced sequence, the completion conduit of a request sees
the error of that request, if any, and then its close. -/
theorem servedTrace_filter_onDone (bindex : BleveIndex σ) (reqs : List StreamRequest)
    (impl : σ) (c : ChanId) (hnd : (doneChans reqs).Nodup) (r : StreamRequest)
    (hr : r ∈ reqs) (hc : r.DoneCh = some c) :
    ∃ sent, (servedTrace bindex impl reqs).filter (Event.onDone c) = doneSignal c sent := by
  induction reqs generalizing impl with
  | nil => simp at hr
  | cons x rest ih =>
    rw [doneChans_cons] at hnd
    have hnd1 := List.nodup_append.1 hnd
    rw [servedTrace, List.filter_append]
    by_cases hx : x.DoneCh = some c
    · have hnot : c ∉ doneChans rest := fun hmem => hnd1.2.2 (by simp [hx]) hmem
      rw [servedEvents_filter_onDone _ _ _ c hx, servedTrace_filter_onDone_ne _ _ _ c hnot]
      exact ⟨loopErr bindex impl x, by simp⟩
    · have hr1 : r ∈ rest := by
        rcases List.mem_cons.1 hr with e | e
        · exact absurd (e ▸ hc) hx
        · exact e
      obtain ⟨sent, hs⟩ := ih (implAfter bindex impl x) hnd1.2.1 hr1
      rw [servedEvents_filter_onDone_ne _ _ _ c hx, hs]
      exact ⟨sent, by simp⟩

theorem servedTrace_filter_onMisc_ne (bindex : BleveIndex σ) (reqs : List StreamRequest)
    (impl : σ) (c : ChanId) (h : c ∉ miscChans reqs) :
    (servedTrace bindex impl reqs).filter (Event.onMisc c) = [] := by
  induction reqs generalizing impl with
  | nil => simp [servedTrace]
  | cons r rest ih =>
    rw [miscChans_cons, List.mem_append, not_or] at h
    have hr : miscChanOf r ≠ some c := fun e => h.1 (by simp [e])
    rw [servedTrace, List.filter_append, servedEvents_filter_onMisc_ne _ _ _ c hr, ih _ h.2]
    rfl

theorem rollbackEvents_filter_write (pindex : PIndex) (req : StreamRequest) :
    (rollbackEvents pindex req).filter Event.isWrite = [] := by
  simp [rollbackEvents, doneEvents_filter_write, Event.isWrite]

theorem rollbackEvents_filter_engine (pindex : PIndex) (req : StreamRequest) :
    (rollbackEvents pindex req).filter Event.isEngineCall = [] := by
  simp [rollbackEvents, doneEvents_filter_engine, Event.isEngineCall]

theorem rollbackEvents_filter_lifecycle (pindex : PIndex) (req : StreamRequest) :
    (rollbackEvents pindex req).filter Event.isLifecycle =
      [.engineClose, .removeAll pindex.Path, .mgrClosePIndex pindex,
        .mgrKick "stream-rollback"] := by
  simp [rollbackEvents, doneEvents_filter_lifecycle, Event.isLifecycle]

theorem rollbackEvents_filter_onDone (pindex : PIndex) (req : StreamRequest) (c : ChanId)
    (h : req.DoneCh = some c) :
    (rollbackEvents pindex req).filter (Event.onDone c) = doneSignal c none := by
  simp [rollbackEvents, doneEvents_filter_onDone _ _ c h, Event.onDone]

theorem rollbackEvents_filter_onDone_ne (pindex : PIndex) (req : StreamRequest) (c : ChanId)
    (h : req.DoneCh ≠ some c) :
    (rollbackEvents pindex req).filter (Event.onDone c) = [] := by
  simp [rollbackEvents, doneEvents_filter_onDone_ne _ _ c h, Event.onDone]

theorem rollbackEvents_filter_onMisc (pindex : PIndex) (req : StreamRequest) (c : ChanId) :
    (rollbackEvents pindex req).filter (Event.onMisc c) = [] := by
  simp [rollbackEvents, doneEvents_filter_onMisc, Event.onMisc]

theorem rejectEvents_filter_engine (reqs : List StreamRequest) :
    (reqs.flatMap rejectEvents).filter Event.isEngineCall = [] := by
  induction reqs with
  | nil => simp
  | cons r rest ih =>
    rw [List.flatMap_cons, List.filter_append, ih]
    unfold rejectEvents
    rcases r.DoneCh with _ | c <;> simp [Event.isEngineCall]

theorem rejectEvents_filter_write (reqs : List StreamRequest) :
    (reqs.flatMap rejectEvents).filter Event.isWrite = [] := by
  induction reqs with
  | nil => simp
  | cons r rest ih =>
    rw [List.flatMap_cons, List.filter_append, ih]
    unfold rejectEvents
    rcases r.DoneCh with _ | c <;> simp [Event.isWrite]

theorem rejectEvents_filter_lifecycle (reqs : List StreamRequest) :
    (reqs.flatMap rejectEvents).filter Event.isLifecycle = [] := by
  induction reqs with
  | nil => simp
  | cons r rest ih =>
    rw [List.flatMap_cons, List.filter_append, ih]
    unfold rejectEvents
    rcases r.DoneCh with _ | c <;> simp [Event.isLifecycle]

theorem rejectEvents_filter_onDone_ne (reqs : List StreamRequest) (c : ChanId)
    (h : c ∉ doneChans reqs) :
    (reqs.flatMap rejectEvents).filter (Event.onDone c) = [] := by
  induction reqs with
  | nil => simp
  | cons r rest ih =>
    rw [doneChans_cons, List.mem_append, not_or] at h
    rw [List.flatMap_cons, List.filter_append, ih h.2]
    unfold rejectEvents
    rcases hd : r.DoneCh with _ | d
    · simp
    · have hne : d ≠ c := fun e => h.1 (by simp [hd, e])
      simp [Event.onDone, hne]

/-- In the trace of the rejections, the completion conduit of a request sees the
"pindex already done" error of that request and then its close. -/
theorem rejectEvents_filter_onDone (reqs : List StreamRequest) (c : ChanId)
    (hnd : (doneChans reqs).Nodup) (r : StreamRequest) (hr : r ∈ reqs)
    (hc : r.DoneCh = some c) :
    (reqs.flatMap rejectEvents).filter (Event.onDone c) =
      [.doneSend c (.pindexAlreadyDone r), .doneClose c] := by
  induction reqs with
  | nil => simp at hr
  | cons x rest ih =>
    rw [doneChans_cons] at hnd
    have hnd1 := List.nodup_append.1 hnd
    rw [List.flatMap_cons, List.filter_append]
    by_cases hx : x.DoneCh = some c
    · have hnot : c ∉ doneChans rest := fun hmem => hnd1.2.2 (by simp [hx]) hmem
      rw [rejectEvents_filter_onDone_ne _ _ hnot]
      rcases List.mem_cons.1 hr with e | e
      · subst e
        simp [rejectEvents, hc, Event.onDone]
      · exact absurd (mem_doneChans.2 ⟨r, e, hc⟩) hnot
    · have hr1 : r ∈ rest := by
        rcases List.mem_cons.1 hr with e | e
        · exact absurd (e ▸ hc) hx
        · exact e
      rw [ih hnd1.2.1 hr1]
      unfold rejectEvents
      rcases hd : x.DoneCh with _ | d
      · simp
      · have hne : d ≠ c := fun e => hx (by rw [hd, e])
        simp [Event.onDone, hne]

end Traces

/-! ## The lifecycle driver -/

section Driver

variable {σ : Type}

/-- A sequence has no `ROLLBACK`, or splits at its first one. -/
theorem rollback_cases (reqs : List StreamRequest) :
    NoRollback reqs ∨ ∃ pre rb post, reqs = pre ++ rb :: post ∧ NoRollback pre ∧
      rb.Op = STREAM_OP_ROLLBACK ∧ beforeRollback reqs = pre ∧ behindRollback reqs = post := by
  by_cases h : NoRollback reqs
  · exact Or.inl h
  · right
    have hex : ∃ r ∈ reqs, r.Op = STREAM_OP_ROLLBACK := by
      unfold NoRollback at h
      push_neg at h
      exact h
    obtain ⟨rb, hrb, hsplit⟩ := split_at_rollback reqs hex
    exact ⟨beforeRollback reqs, rb, behindRollback reqs, hsplit,
      noRollback_beforeRollback reqs, hrb, rfl, rfl⟩

/-- The conduits queued behind a `ROLLBACK` are still live when it has been
handled. -/
theorem fresh_behind (bindex : BleveIndex σ) (pre : List StreamRequest) (rb : StreamRequest)
    (post : List StreamRequest) (s : Runtime σ)
    (hnd : (doneChans (pre ++ rb :: post)).Nodup)
    (hfd : ∀ c ∈ doneChans (pre ++ rb :: post), c ∉ s.closedDone) :
    (doneChans post).Nodup ∧
      ∀ c ∈ doneChans post, c ∉ ((s.servedAll bindex pre).served bindex rb).closedDone := by
  have h1 := hnd
  rw [doneChans_append, doneChans_cons] at h1
  have h2 := List.nodup_append.1 h1
  have h3 := List.nodup_append.1 h2.2.1
  refine ⟨h3.2.1, ?_⟩
  intro c hc hmem
  simp only [Runtime.served, List.mem_append] at hmem
  rcases hmem with hmem | hmem
  · exact h3.2.2 hmem hc
  · rcases (servedAll_closedDone bindex pre s c).1 hmem with hmem | hmem
    · exact h2.2.2 hmem (List.mem_append_right _ hc)
    · refine hfd c ?_ hmem
      rw [doneChans_append, doneChans_cons]
      exact List.mem_append_right _ (List.mem_append_right _ hc)

/-- What a well-formed mailbox with a `ROLLBACK` gives for the part that is
serviced and for the completion conduits of the whole. -/
theorem WellFormed.split {s : Runtime σ} {pre : List StreamRequest} {rb : StreamRequest}
    {post : List StreamRequest} (hw : WellFormed (pre ++ rb :: post))
    (hf : Fresh s (pre ++ rb :: post)) :
    WellFormed (pre ++ [rb]) ∧ Fresh s (pre ++ [rb]) ∧
      (doneChans (pre ++ rb :: post)).Nodup ∧
      ∀ c ∈ doneChans (pre ++ rb :: post), c ∉ s.closedDone := by
  have he : pre ++ rb :: post = (pre ++ [rb]) ++ post := by simp
  refine ⟨?_, ?_, hw.1, hf.1⟩
  · rw [he] at hw
    exact hw.of_append_left
  · rw [he] at hf
    exact hf.left_part

/-- Graceful retirement: the requests are serviced, then the engine is closed and
the path removed. -/
theorem Run_graceful (bindex : BleveIndex σ) (pindex : PIndex) (reqs : List StreamRequest)
    (s : Runtime σ) (hb : pindex.IndexType = "bleve") (hnr : NoRollback reqs)
    (hw : WellFormed reqs) (hf : Fresh s reqs) :
    ∃ t, PIndex.Run bindex pindex s reqs =
      .ok t (servedTrace bindex s.impl reqs ++ [.engineClose, .removeAll pindex.Path]) () := by
  have h := RunBleveStream_noRollback bindex pindex reqs s hnr hw hf
  refine ⟨{ (s.servedAll bindex reqs) with
    impl := bindex.Close (s.servedAll bindex reqs).impl }, ?_⟩
  simp [PIndex.Run, hb, h, teardown, rejectAll]

/-- Retirement by rollback: the requests in front of the first `ROLLBACK` are
serviced, the rollback is carried out, the requests behind it are rejected. -/
theorem Run_rollback (bindex : BleveIndex σ) (pindex : PIndex) (pre : List StreamRequest)
    (rb : StreamRequest) (post : List StreamRequest) (s : Runtime σ)
    (hb : pindex.IndexType = "bleve") (hnr : NoRollback pre)
    (hrb : rb.Op = STREAM_OP_ROLLBACK) (hw : WellFormed (pre ++ [rb]))
    (hf : Fresh s (pre ++ [rb])) (hnd : (doneChans (pre ++ rb :: post)).Nodup)
    (hfd : ∀ c ∈ doneChans (pre ++ rb :: post), c ∉ s.closedDone) :
    ∃ t, PIndex.Run bindex pindex s (pre ++ rb :: post) =
      .ok t (servedTrace bindex s.impl pre ++ rollbackEvents pindex rb ++
        post.flatMap rejectEvents) () := by
  have h := RunBleveStream_rollback_served bindex pindex pre rb post s hnr hrb hw hf
  have hfb := fresh_behind bindex pre rb post s hnd hfd
  obtain ⟨t, ht⟩ := rejectAll_ok post ((s.servedAll bindex pre).served bindex rb) hfb.1 hfb.2
  exact ⟨t, by simp [PIndex.Run, hb, h, teardown, ht]⟩

/-- Unknown index type: teardown at once, then every request is rejected. -/
theorem Run_unknown (bindex : BleveIndex σ) (pindex : PIndex) (reqs : List StreamRequest)
    (s : Runtime σ) (hb : pindex.IndexType ≠ "bleve") (hnd : (doneChans reqs).Nodup)
    (hf : ∀ c ∈ doneChans reqs, c ∉ s.closedDone) :
    ∃ t, PIndex.Run bindex pindex s reqs =
      .ok t ([.engineClose, .removeAll pindex.Path] ++ reqs.flatMap rejectEvents) () := by
  obtain ⟨t, ht⟩ := rejectAll_ok reqs { s with impl := bindex.Close s.impl } hnd hf
  exact ⟨t, by simp [PIndex.Run, hb, teardown, ht]⟩

/-- A well-formed mailbox whose conduits are live makes `RunBleveStream` end
without panic. -/
theorem RunBleveStream_no_panic (bindex : BleveIndex σ) (pindex : PIndex)
    (reqs : List StreamRequest) (s : Runtime σ) (hw : WellFormed reqs) (hf : Fresh s reqs) :
    (RunBleveStream bindex pindex s reqs).panicked = false := by
  rcases rollback_cases reqs with hnr | ⟨pre, rb, post, rfl, hnr, hrb, _, _⟩
  · rw [RunBleveStream_noRollback bindex pindex reqs s hnr hw hf]
    rfl
  · rw [RunBleveStream_rollback bindex pindex pre rb post s hnr hrb hw hf]
    rfl

/-- A well-formed mailbox whose conduits are live makes `Run` end without panic,
whatever the index type. -/
theorem Run_no_panic (bindex : BleveIndex σ) (pindex : PIndex) (reqs : List StreamRequest)
    (s : Runtime σ) (hw : WellFormed reqs) (hf : Fresh s reqs) :
    (PIndex.Run bindex pindex s reqs).panicked = false := by
  by_cases hb : pindex.IndexType = "bleve"
  · rcases rollback_cases reqs with hnr | ⟨pre, rb, post, rfl, hnr, hrb, _, _⟩
    · obtain ⟨t, ht⟩ := Run_graceful bindex pindex reqs s hb hnr hw hf
      rw [ht]
      rfl
    · obtain ⟨h1, h2, h3, h4⟩ := hw.split hf
      obtain ⟨t, ht⟩ := Run_rollback bindex pindex pre rb post s hb hnr hrb h1 h2 h3 h4
      rw [ht]
      rfl
  · obtain ⟨t, ht⟩ := Run_unknown bindex pindex reqs s hb hw.1 hf.1
    rw [ht]
    rfl

end Driver

/-! ## Runs that do not panic -/

section NoPanic

variable {σ : Type}

theorem signalDone_dead (s : Runtime σ) (req : StreamRequest) (err : Option GoError)
    (pre : List Event) (c : ChanId) (hc : req.DoneCh = some c) (hm : c ∈ s.closedDone) :
    ((signalDone s req err).after pre).panicked = true := by
  unfold signalDone
  rw [hc]
  cases err <;> simp [hm, Exec.panicked]

/-- A request whose completion conduit is already closed makes the loop body
panic. -/
theorem loopBody_dead_done (bindex : BleveIndex σ) (pindex : PIndex) (s : Runtime σ)
    (req : StreamRequest) (c : ChanId) (hc : req.DoneCh = some c) (hm : c ∈ s.closedDone) :
    (loopBody bindex pindex s req).panicked = true := by
  rcases hop : req.Op with _ | _ | _ | _ | _ | _ | _
  · have := signalDone_dead s req none [] c hc hm
    simpa [loopBody, hop] using this
  · have := signalDone_dead { s with impl := (bindex.Index s.impl req.Key req.Val).1 } req
      (bindex.Index s.impl req.Key req.Val).2 [.engineIndex req.Key req.Val] c hc hm
    simpa [loopBody, hop] using this
  · have := signalDone_dead { s with impl := (bindex.Delete s.impl req.Key).1 } req
      (bindex.Delete s.impl req.Key).2 [.engineDelete req.Key] c hc hm
    simpa [loopBody, hop] using this
  · have := signalDone_dead s req none [] c hc hm
    simpa [loopBody, hop] using this
  · simp [loopBody, hop, rollback, hc, hm, Exec.panicked]
  · simp only [loopBody, hop, getMeta]
    rcases req.Misc with _ | mc | tag
    · exact signalDone_dead _ req none _ c hc hm
    · rcases mc with _ | mc
      · rfl
      · rcases (bindex.GetInternal s.impl req.Key).2.2 with _ | ge <;>
          by_cases hmc : mc ∈ s.closedMisc <;> simp only [hmc, if_true, if_false] <;>
          first
            | rfl
            | exact signalDone_dead _ req none _ c hc hm
    · rfl
  · have := signalDone_dead
      { s with impl := (bindex.SetInternal s.impl req.Key req.Val).1 } req
      (bindex.SetInternal s.impl req.Key req.Val).2
      [.engineSetInternal req.Key req.Val] c hc hm
    simpa [loopBody, hop] using this

/-- A `GET_META` whose reply conduit is already closed makes the loop body
panic. -/
theorem loopBody_dead_misc (bindex : BleveIndex σ) (pindex : PIndex) (s : Runtime σ)
    (req : StreamRequest) (c : ChanId) (hc : miscChanOf req = some c)
    (hm : c ∈ s.closedMisc) : (loopBody bindex pindex s req).panicked = true := by
  rcases hop : req.Op with _ | _ | _ | _ | _ | _ | _ <;>
    rcases hmv : req.Misc with _ | mc | tag <;>
    simp [miscChanOf, hop, hmv] at hc
  rcases mc with _ | mc
  · simp at hc
  · simp only [Option.some.injEq] at hc
    subst hc
    simp only [loopBody, hop, getMeta, hmv]
    rcases (bindex.GetInternal s.impl req.Key).2.2 with _ | ge <;> simp [hm, Exec.panicked]

/-- A `GET_META` whose `Misc` is neither nil nor a non-nil `chan []byte` makes
the loop body panic. -/
theorem loopBody_bad_misc (bindex : BleveIndex σ) (pindex : PIndex) (s : Runtime σ)
    (req : StreamRequest) (h : miscOK req = false) :
    (loopBody bindex pindex s req).panicked = true := by
  rcases hop : req.Op with _ | _ | _ | _ | _ | _ | _ <;>
    rcases hmv : req.Misc with _ | mc | tag <;>
    simp [miscOK, hop, hmv] at h
  · rcases mc with _ | mc
    · simp [loopBody, hop, getMeta, hmv, Exec.panicked]
    · simp at h
  · simp [loopBody, hop, getMeta, hmv, Exec.panicked]

/-- A loop body that does not panic had live conduits and a usable `Misc`. -/
theorem loopBody_live (bindex : BleveIndex σ) (pindex : PIndex) (s : Runtime σ)
    (req : StreamRequest) (h : (loopBody bindex pindex s req).panicked = false) :
    (∀ c, req.DoneCh = some c → c ∉ s.closedDone) ∧
      (∀ c, miscChanOf req = some c → c ∉ s.closedMisc) ∧ miscOK req = true := by
  refine ⟨fun c hc hm => ?_, fun c hc hm => ?_, ?_⟩
  · rw [loopBody_dead_done bindex pindex s req c hc hm] at h
    exact absurd h (by decide)
  · rw [loopBody_dead_misc bindex pindex s req c hc hm] at h
    exact absurd h (by decide)
  · by_contra hbad
    rw [loopBody_bad_misc bindex pindex s req (by simpa using hbad)] at h
    exact absurd h (by decide)

theorem RunBleveStream_head (bindex : BleveIndex σ) (pindex : PIndex) (s : Runtime σ)
    (r : StreamRequest) (rest : List StreamRequest)
    (h : (RunBleveStream bindex pindex s (r :: rest)).panicked = false) :
    (loopBody bindex pindex s r).panicked = false := by
  rw [RunBleveStream] at h
  rcases hl : loopBody bindex pindex s r with ⟨t, evs, ex⟩ | ⟨evs, msg⟩
  · rfl
  · rw [hl] at h
    exact h

/-- Putting a serviced request in front of a well-formed live sequence. -/
theorem WellFormed.cons (bindex : BleveIndex σ) {s : Runtime σ} {r : StreamRequest}
    {rest : List StreamRequest} (hd : ∀ c, r.DoneCh = some c → c ∉ s.closedDone)
    (hm : ∀ c, miscChanOf r = some c → c ∉ s.closedMisc) (hok : miscOK r = true)
    (hw : WellFormed rest) (hf : Fresh (s.served bindex r) rest) :
    WellFormed (r :: rest) ∧ Fresh s (r :: rest) := by
  have n1 : r.DoneCh.toList.Nodup := by rcases r.DoneCh with _ | c <;> simp
  have n2 : (miscChanOf r).toList.Nodup := by rcases miscChanOf r with _ | c <;> simp
  refine ⟨⟨?_, ?_, ?_⟩, ?_, ?_⟩
  · rw [doneChans_cons]
    refine List.nodup_append.2 ⟨n1, hw.1, ?_⟩
    intro a ha1 ha2
    exact hf.1 a ha2 (by simp only [Runtime.served]; exact List.mem_append_left _ ha1)
  · rw [miscChans_cons]
    refine List.nodup_append.2 ⟨n2, hw.2.1, ?_⟩
    intro a ha1 ha2
    exact hf.2 a ha2 (by simp only [Runtime.served]; exact List.mem_append_left _ ha1)
  · intro x hx
    rcases List.mem_cons.1 hx with e | e
    · rw [e]; exact hok
    · exact hw.2.2 x e
  · intro c hc
    rw [doneChans_cons] at hc
    rcases List.mem_append.1 hc with h1 | h1
    · exact hd c (by simpa using h1)
    · exact fun hmem => hf.1 c h1 (by
        simp only [Runtime.served]; exact List.mem_append_right _ hmem)
  · intro c hc
    rw [miscChans_cons] at hc
    rcases List.mem_append.1 hc with h1 | h1
    · exact hm c (by simpa using h1)
    · exact fun hmem => hf.2 c h1 (by
        simp only [Runtime.served]; exact List.mem_append_right _ hmem)

/-- A sequence without `ROLLBACK` on which the loop does not panic is well-formed
and its conduits were live. -/
theorem RunBleveStream_live (bindex : BleveIndex σ) (pindex : PIndex)
    (reqs : List StreamRequest) (s : Runtime σ) (hnr : NoRollback reqs)
    (h : (RunBleveStream bindex pindex s reqs).panicked = false) :
    WellFormed reqs ∧ Fresh s reqs := by
  induction reqs generalizing s with
  | nil =>
    exact ⟨⟨by simp [doneChans], by simp [miscChans], by simp⟩,
      by simp [doneChans], by simp [miscChans]⟩
  | cons r rest ih =>
    have hop : r.Op ≠ STREAM_OP_ROLLBACK := hnr r (List.mem_cons_self _ _)
    obtain ⟨hd, hm, hok⟩ := loopBody_live bindex pindex s r
      (RunBleveStream_head bindex pindex s r rest h)
    have hb := loopBody_ok bindex pindex s r hop hok hd hm
    rw [RunBleveStream, hb] at h
    simp only [Exec.panicked_after] at h
    obtain ⟨hw, hf⟩ := ih (s.served bindex r)
      (fun x hx => hnr x (List.mem_cons_of_mem _ hx)) h
    exact WellFormed.cons bindex hd hm hok hw hf

/-- A sequence with a `ROLLBACK` on which the loop does not panic is well-formed
up to and including the first `ROLLBACK`, and those conduits were live. -/
theorem RunBleveStream_live_rollback (bindex : BleveIndex σ) (pindex : PIndex)
    (pre : List StreamRequest) (rb : StreamRequest) (post : List StreamRequest)
    (s : Runtime σ) (hnr : NoRollback pre)
    (h : (RunBleveStream bindex pindex s (pre ++ rb :: post)).panicked = false) :
    WellFormed (pre ++ [rb]) ∧ Fresh s (pre ++ [rb]) := by
  induction pre generalizing s with
  | nil =>
    obtain ⟨hd, hm, hok⟩ := loopBody_live bindex pindex s rb
      (RunBleveStream_head bindex pindex s rb post h)
    exact WellFormed.cons bindex hd hm hok
      ⟨by simp [doneChans], by simp [miscChans], by simp⟩
      ⟨by simp [doneChans], by simp [miscChans]⟩
  | cons r rest ih =>
    have hop : r.Op ≠ STREAM_OP_ROLLBACK := hnr r (List.mem_cons_self _ _)
    have h0 : (RunBleveStream bindex pindex s (r :: (rest ++ rb :: post))).panicked = false := h
    obtain ⟨hd, hm, hok⟩ := loopBody_live bindex pindex s r
      (RunBleveStream_head bindex pindex s r _ h0)
    have hb := loopBody_ok bindex pindex s r hop hok hd hm
    rw [RunBleveStream, hb] at h0
    simp only [Exec.panicked_after] at h0
    obtain ⟨hw, hf⟩ := ih (s.served bindex r)
      (fun x hx => hnr x (List.mem_cons_of_mem _ hx)) h0
    exact WellFormed.cons bindex hd hm hok hw hf

/-- Rejections that do not panic were made on live conduits, each its own. -/
theorem rejectAll_live (reqs : List StreamRequest) (s : Runtime σ)
    (h : (rejectAll s reqs).panicked = false) :
    (doneChans reqs).Nodup ∧ ∀ c ∈ doneChans reqs, c ∉ s.closedDone := by
  induction reqs generalizing s with
  | nil => simp [doneChans]
  | cons r rest ih =>
    rw [doneChans_cons]
    rcases hdc : r.DoneCh with _ | c
    · rw [rejectAll] at h
      simp only [hdc] at h
      simpa using ih s h
    · rw [rejectAll] at h
      simp only [hdc] at h
      by_cases hc : c ∈ s.closedDone
      · simp [hc, Exec.panicked] at h
      · simp only [hc, if_false, Exec.panicked_after] at h
        obtain ⟨h1, h2⟩ := ih _ h
        refine ⟨?_, ?_⟩
        · simp only [Option.toList, List.singleton_append, List.nodup_cons]
          exact ⟨fun hmem => h2 c hmem (List.mem_cons_self _ _), h1⟩
        · intro d hd
          simp only [Option.toList, List.singleton_append, List.mem_cons] at hd
          rcases hd with e | e
          · rw [e]; exact hc
          · exact fun hmem => h2 d e (List.mem_cons_of_mem _ hmem)

theorem teardown_keep (bindex : BleveIndex σ) (pindex : PIndex) (s : Runtime σ)
    (rest : List StreamRequest) :
    teardown bindex pindex s false false rest = rejectAll s rest := by
  simp [teardown]

theorem teardown_both (bindex : BleveIndex σ) (pindex : PIndex) (s : Runtime σ)
    (rest : List StreamRequest) :
    teardown bindex pindex s true true rest =
      (rejectAll { s with impl := bindex.Close s.impl } rest).after
        [.engineClose, .removeAll pindex.Path] := by
  simp [teardown]

theorem Run_stream_ok (bindex : BleveIndex σ) (pindex : PIndex) (s : Runtime σ)
    (reqs : List StreamRequest) (hb : pindex.IndexType = "bleve")
    (h : (PIndex.Run bindex pindex s reqs).panicked = false) :
    (RunBleveStream bindex pindex s reqs).panicked = false := by
  unfold PIndex.Run at h
  simp only [hb, if_true] at h
  rcases hr : RunBleveStream bindex pindex s reqs with ⟨t, evs, res⟩ | ⟨evs, msg⟩
  · rfl
  · rw [hr] at h
    exact h

/-- A graceful run that does not panic was made on a well-formed mailbox. -/
theorem Run_live_graceful (bindex : BleveIndex σ) (pindex : PIndex) (s : Runtime σ)
    (reqs : List StreamRequest) (hb : pindex.IndexType = "bleve") (hnr : NoRollback reqs)
    (h : (PIndex.Run bindex pindex s reqs).panicked = false) :
    WellFormed reqs ∧ Fresh s reqs :=
  RunBleveStream_live bindex pindex reqs s hnr (Run_stream_ok bindex pindex s reqs hb h)

/-- A run with a `ROLLBACK` that does not panic: the serviced part was
well-formed and every completion conduit of the mailbox was live and its own. -/
theorem Run_live_rollback (bindex : BleveIndex σ) (pindex : PIndex) (s : Runtime σ)
    (pre : List StreamRequest) (rb : StreamRequest) (post : List StreamRequest)
    (hb : pindex.IndexType = "bleve") (hnr : NoRollback pre)
    (hrb : rb.Op = STREAM_OP_ROLLBACK)
    (h : (PIndex.Run bindex pindex s (pre ++ rb :: post)).panicked = false) :
    WellFormed (pre ++ [rb]) ∧ Fresh s (pre ++ [rb]) ∧
      (doneChans (pre ++ rb :: post)).Nodup ∧
      ∀ c ∈ doneChans (pre ++ rb :: post), c ∉ s.closedDone := by
  obtain ⟨hw, hf⟩ := RunBleveStream_live_rollback bindex pindex pre rb post s hnr
    (Run_stream_ok bindex pindex s _ hb h)
  have hs := RunBleveStream_rollback_served bindex pindex pre rb post s hnr hrb hw hf
  unfold PIndex.Run at h
  simp only [hb, if_true, hs, teardown_keep, Exec.panicked_after] at h
  obtain ⟨r1, r2⟩ := rejectAll_live post _ h
  have he : doneChans (pre ++ rb :: post) = doneChans (pre ++ [rb]) ++ doneChans post := by
    rw [← doneChans_append]; simp
  have hclosed : ∀ c, c ∈ doneChans (pre ++ [rb]) →
      c ∈ ((s.servedAll bindex pre).served bindex rb).closedDone := by
    intro c hc
    rw [doneChans_append] at hc
    simp only [Runtime.served, List.mem_append]
    rcases List.mem_append.1 hc with h1 | h1
    · exact Or.inr ((servedAll_closedDone bindex pre s c).2 (Or.inl h1))
    · left
      rw [doneChans_cons] at h1
      simpa [doneChans] using h1
  refine ⟨hw, hf, ?_, ?_⟩
  · rw [he]
    exact List.nodup_append.2 ⟨hw.1, r1, fun a ha1 ha2 => r2 a ha2 (hclosed a ha1)⟩
  · intro c hc
    rw [he] at hc
    rcases List.mem_append.1 hc with h1 | h1
    · exact hf.1 c h1
    · intro hmem
      refine r2 c h1 ?_
      simp only [Runtime.served, List.mem_append]
      exact Or.inr ((servedAll_closedDone bindex pre s c).2 (Or.inr hmem))

/-- A run on an unknown index type that does not panic was made on live
completion conduits, each its own. -/
theorem Run_live_unknown (bindex : BleveIndex σ) (pindex : PIndex) (s : Runtime σ)
    (reqs : List StreamRequest) (hb : pindex.IndexType ≠ "bleve")
    (h : (PIndex.Run bindex pindex s reqs).panicked = false) :
    (doneChans reqs).Nodup ∧ ∀ c ∈ doneChans reqs, c ∉ s.closedDone := by
  unfold PIndex.Run at h
  simp only [hb, if_false, teardown_both, Exec.panicked_after] at h
  exact rejectAll_live reqs { s with impl := bindex.Close s.impl } h

end NoPanic

/-! ## Engine close comes first, on every run -/

section Shape

variable {σ : Type}

theorem Quiet.append {a b : List Event} (ha : Quiet a) (hb : Quiet b) : Quiet (a ++ b) := by
  intro e he
  rcases List.mem_append.1 he with h | h
  · exact ha e h
  · exact hb e h

theorem Guarded.closeBeforeRemove {tr : List Event} (h : Guarded tr) :
    CloseBeforeRemove tr := by
  intro pre p post heq
  rcases h with hq | ⟨a, tl, rfl, ha⟩
  · have := hq (.removeAll p) (by rw [heq]; simp)
    simp [Event.isLifecycle] at this
  · rcases List.append_eq_append_iff.1 heq with ⟨a1, h1, h2⟩ | ⟨c1, h1, h2⟩
    · rcases a1 with _ | ⟨x, a2⟩
      · simp at h2
      · simp only [List.cons_append, List.cons.injEq] at h2
        rw [h1, ← h2.1]
        simp
    · rcases c1 with _ | ⟨x, c2⟩
      · simp at h2
      · simp only [List.cons_append, List.cons.injEq] at h2
        have := ha (.removeAll p) (by rw [h1, ← h2.1]; simp)
        simp [Event.isLifecycle] at this

theorem signalDone_quiet (s : Runtime σ) (req : StreamRequest) (err : Option GoError)
    (pre : List Event) (hpre : Quiet pre) : QuietExec ((signalDone s req err).after pre) := by
  unfold signalDone
  rcases req.DoneCh with _ | c
  · simpa [QuietExec] using hpre
  · rcases err with _ | e <;> by_cases hc : c ∈ s.closedDone <;>
      simp only [hc, if_true, if_false, Exec.after_ok, Exec.after_panic, QuietExec,
        List.append_nil] <;>
      first
        | exact hpre
        | exact hpre.append (by simp [Quiet, Event.isLifecycle])

theorem QuietExec.bodyShape {x : Exec σ LoopExit} (h : QuietExec x) : BodyShape x := by
  rcases x with ⟨t, evs, _ | v⟩ | ⟨evs, msg⟩
  · exact h
  · exact absurd h (by simp [QuietExec])
  · exact Or.inl h

theorem loopBody_shape (bindex : BleveIndex σ) (pindex : PIndex) (s : Runtime σ)
    (req : StreamRequest) : BodyShape (loopBody bindex pindex s req) := by
  have q1 : ∀ e : Event, e.isLifecycle = false → Quiet [e] := by
    intro e he x hx
    rw [List.mem_singleton.1 hx]
    exact he
  rcases hop : req.Op with _ | _ | _ | _ | _ | _ | _
  · have := signalDone_quiet s req none [] (by simp [Quiet])
    simpa [loopBody, hop] using this.bodyShape
  · have := signalDone_quiet { s with impl := (bindex.Index s.impl req.Key req.Val).1 } req
      (bindex.Index s.impl req.Key req.Val).2 [.engineIndex req.Key req.Val] (q1 _ rfl)
    simpa [loopBody, hop] using this.bodyShape
  · have := signalDone_quiet { s with impl := (bindex.Delete s.impl req.Key).1 } req
      (bindex.Delete s.impl req.Key).2 [.engineDelete req.Key] (q1 _ rfl)
    simpa [loopBody, hop] using this.bodyShape
  · have := signalDone_quiet s req none [] (by simp [Quiet])
    simpa [loopBody, hop] using this.bodyShape
  · simp only [loopBody, hop, rollback]
    rcases req.DoneCh with _ | c
    · simp [BodyShape]
    · by_cases hc : c ∈ s.closedDone <;> simp [hc, BodyShape]
  · simp only [loopBody, hop, getMeta]
    rcases req.Misc with _ | mc | tag
    · exact (signalDone_quiet _ req none [.engineGetInternal req.Key]
        (q1 (.engineGetInternal req.Key) rfl)).bodyShape
    · rcases mc with _ | mc
      · exact Or.inl (q1 (.engineGetInternal req.Key) rfl)
      · have q2 : ∀ l : List Event, (∀ e ∈ l, e.isLifecycle = false) → Quiet l := fun l h => h
        rcases (bindex.GetInternal s.impl req.Key).2.2 with _ | ge <;>
          by_cases hc : mc ∈ s.closedMisc
        · simpa [hc] using Or.inl (q1 (.engineGetInternal req.Key) rfl)
        · simp only [hc, if_false]
          exact (signalDone_quiet _ req none _
            (q2 _ (by simp [Event.isLifecycle]))).bodyShape
        · simpa [hc] using Or.inl (q1 (.engineGetInternal req.Key) rfl)
        · simp only [hc, if_false]
          exact (signalDone_quiet _ req none _
            (q2 _ (by simp [Event.isLifecycle]))).bodyShape
    · exact Or.inl (q1 (.engineGetInternal req.Key) rfl)
  · have := signalDone_quiet { s with impl := (bindex.SetInternal s.impl req.Key req.Val).1 }
      req (bindex.SetInternal s.impl req.Key req.Val).2
      [.engineSetInternal req.Key req.Val] (q1 _ rfl)
    simpa [loopBody, hop] using this.bodyShape

theorem StreamShape.after {x : Exec σ StreamResult} (h : StreamShape x) {pre : List Event}
    (hpre : Quiet pre) : StreamShape (x.after pre) := by
  rcases x with ⟨t, evs, res⟩ | ⟨evs, msg⟩
  · rcases h with ⟨h1, h2, h3⟩ | ⟨h1, h2, a, tl, h3, h4⟩
    · exact Or.inl ⟨h1, h2, hpre.append h3⟩
    · exact Or.inr ⟨h1, h2, pre ++ a, tl, by simp [h3], hpre.append h4⟩
  · rcases h with h | ⟨a, tl, h3, h4⟩
    · exact Or.inl (hpre.append h)
    · exact Or.inr ⟨pre ++ a, tl, by simp [h3], hpre.append h4⟩

theorem RunBleveStream_shape (bindex : BleveIndex σ) (pindex : PIndex)
    (reqs : List StreamRequest) (s : Runtime σ) :
    StreamShape (RunBleveStream bindex pindex s reqs) := by
  induction reqs generalizing s with
  | nil => exact Or.inl ⟨rfl, rfl, by simp [Quiet]⟩
  | cons r rest ih =>
    have hb := loopBody_shape bindex pindex s r
    rw [RunBleveStream]
    rcases hl : loopBody bindex pindex s r with ⟨t, evs, _ | ⟨ci, cp, e⟩⟩ | ⟨evs, msg⟩
    · rw [hl] at hb
      exact (ih t).after hb
    · rw [hl] at hb
      obtain ⟨hx, tl, htl⟩ := hb
      simp only [Prod.mk.injEq] at hx
      exact Or.inr ⟨hx.1, hx.2.1, [], tl, by simp [htl], by simp [Quiet]⟩
    · rw [hl] at hb
      rcases hb with hq | ⟨tl, htl⟩
      · exact Or.inl hq
      · exact Or.inr ⟨[], tl, by simp [htl], by simp [Quiet]⟩

/-- On every run of `PIndex.Run`, panicking or not, the first teardown effect is
the engine close. -/
theorem Run_guarded (bindex : BleveIndex σ) (pindex : PIndex) (s : Runtime σ)
    (reqs : List StreamRequest) : Guarded (PIndex.Run bindex pindex s reqs).events := by
  unfold PIndex.Run
  by_cases hb : pindex.IndexType = "bleve"
  · simp only [hb, if_true]
    have hs := RunBleveStream_shape bindex pindex reqs s
    rcases hr : RunBleveStream bindex pindex s reqs with ⟨t, evs, res⟩ | ⟨evs, msg⟩
    · rw [hr] at hs
      rcases hs with ⟨h1, h2, h3⟩ | ⟨h1, h2, a, tl, h3, h4⟩
      · exact Or.inr ⟨evs, .removeAll pindex.Path ::
          (rejectAll { t with impl := bindex.Close t.impl } res.unread).events,
          by simp [teardown, h1, h2], h3⟩
      · exact Or.inr ⟨a, tl ++ (rejectAll t res.unread).events,
          by simp [teardown, h1, h2, h3], h4⟩
    · rw [hr] at hs
      exact hs
  · simp only [hb, if_false]
    exact Or.inr ⟨[], .removeAll pindex.Path ::
      (rejectAll { s with impl := bindex.Close s.impl } reqs).events,
      by simp [teardown], by simp [Quiet]⟩

end Shape

/-! ## Metadata round trip -/

section RoundTrip

variable {σ : Type}

theorem servedTrace_append (bindex : BleveIndex σ) (xs ys : List StreamRequest) (impl : σ) :
    servedTrace bindex impl (xs ++ ys) =
      servedTrace bindex impl xs ++
        servedTrace bindex (xs.foldl (implAfter bindex) impl) ys := by
  induction xs generalizing impl with
  | nil => simp [servedTrace]
  | cons x rest ih =>
    rw [List.cons_append, servedTrace, ih, servedTrace, List.append_assoc, List.foldl_cons]

theorem MetaRoundTrip.keeps {bindex : BleveIndex σ} (hlaw : MetaRoundTrip bindex)
    (k : Bytes) (mid : List StreamRequest) (impl : σ) (hnr : NoRollback mid)
    (hns : ∀ r ∈ mid, r.Op = STREAM_OP_SET_META → r.Key ≠ k) :
    (bindex.GetInternal (mid.foldl (implAfter bindex) impl) k).2 =
      (bindex.GetInternal impl k).2 := by
  induction mid generalizing impl with
  | nil => rfl
  | cons r rest ih =>
    rw [List.foldl_cons, ih _ (fun x hx => hnr x (List.mem_cons_of_mem _ hx))
      (fun x hx => hns x (List.mem_cons_of_mem _ hx))]
    have hr := hnr r (List.mem_cons_self _ _)
    have hs := hns r (List.mem_cons_self _ _)
    unfold implAfter
    rcases hop : r.Op with _ | _ | _ | _ | _ | _ | _
    · rfl
    · exact hlaw.index_keeps _ _ _ _
    · exact hlaw.delete_keeps _ _ _
    · rfl
    · exact absurd hop hr
    · exact hlaw.get_keeps _ _ _
    · exact hlaw.set_keeps _ _ _ _ (hs hop)

/-- In the trace of `SET_META(k, v)`, then requests that neither roll back nor
set `k`, then `GET_META(k)` with reply conduit `c`, the conduit `c` sees `v` and
then its close. -/
theorem roundTrip_trace {bindex : BleveIndex σ} (hlaw : MetaRoundTrip bindex) (impl : σ)
    (setReq getReq : StreamRequest) (mid tl : List StreamRequest) (c : ChanId)
    (hset : setReq.Op = STREAM_OP_SET_META)
    (hok : (bindex.SetInternal impl setReq.Key setReq.Val).2 = none)
    (hget : getReq.Op = STREAM_OP_GET_META) (hkey : getReq.Key = setReq.Key)
    (hmisc : getReq.Misc = .bytesChan (some c)) (hnr : NoRollback mid)
    (hns : ∀ r ∈ mid, r.Op = STREAM_OP_SET_META → r.Key ≠ setReq.Key)
    (hmid : c ∉ miscChans mid) (htl : c ∉ miscChans tl) :
    (servedTrace bindex impl (setReq :: mid ++ getReq :: tl)).filter (Event.onMisc c) =
      [.miscSend c setReq.Val, .miscClose c] := by
  have h1 : miscChanOf setReq ≠ some c := by simp [miscChanOf, hset]
  have h2 : miscChanOf getReq = some c := by simp [miscChanOf, hget, hmisc]
  have h3 : implAfter bindex impl setReq = (bindex.SetInternal impl setReq.Key setReq.Val).1 := by
    simp [implAfter, hset]
  have h4 := hlaw.keeps setReq.Key mid (implAfter bindex impl setReq) hnr hns
  rw [h3, hlaw.set_get impl setReq.Key setReq.Val hok, ← h3] at h4
  rw [show setReq :: mid ++ getReq :: tl = setReq :: (mid ++ getReq :: tl) from rfl,
    servedTrace, servedTrace_append, servedTrace]
  simp only [List.filter_append]
  rw [servedEvents_filter_onMisc_ne _ _ _ c h1, servedTrace_filter_onMisc_ne _ _ _ c hmid,
    servedEvents_filter_onMisc _ _ _ c h2, servedTrace_filter_onMisc_ne _ _ _ c htl, hkey, h4]
  rfl

end RoundTrip

/-! ## The claims -/

section Claims

variable {σ : Type}

/-- Whatever the engine answers (any call may fail), on every mailbox on which
`RunBleveStream` does not panic the engine write calls (`Index` for `UPDATE`,
`Delete` for `DELETE`) are exactly those of the `UPDATE`/`DELETE` requests in
front of the first `ROLLBACK`, in enqueue order, once each, with the key and
value of the request; and it does not panic on a mailbox in which each conduit is
its own and live and each `GET_META` payload is absent or a real reply conduit. -/
theorem writes_in_enqueue_order (bindex : BleveIndex σ) (pindex : PIndex)
    (s : Runtime σ) (reqs : List StreamRequest) :
    (WellFormed reqs → Fresh s reqs →
        (RunBleveStream bindex pindex s reqs).panicked = false) ∧
      ((RunBleveStream bindex pindex s reqs).panicked = false →
        (RunBleveStream bindex pindex s reqs).events.filter Event.isWrite =
          (beforeRollback reqs).filterMap writeCallOf) := by
  refine ⟨RunBleveStream_no_panic bindex pindex reqs s, fun h => ?_⟩
  rcases rollback_cases reqs with hnr | ⟨pre, rb, post, rfl, hnr, hrb, hb1, _⟩
  · obtain ⟨hw, hf⟩ := RunBleveStream_live bindex pindex reqs s hnr h
    rw [RunBleveStream_noRollback bindex pindex reqs s hnr hw hf,
      beforeRollback_of_noRollback hnr]
    exact servedTrace_filter_write bindex reqs s.impl
  · obtain ⟨hw, hf⟩ := RunBleveStream_live_rollback bindex pindex pre rb post s hnr h
    rw [RunBleveStream_rollback_served bindex pindex pre rb post s hnr hrb hw hf, hb1]
    simp [servedTrace_filter_write, rollbackEvents_filter_write]

/-- C2: on every mailbox on which `PIndex.Run` does not panic (any index type,
any mix of ops, any engine errors), every request with a completion conduit sees
on that conduit either just its close, or one value and then its close: closed
exactly once, at most one value, the value first.  And `Run` does not panic on
any mailbox in which each completion conduit and each `GET_META` reply conduit is
live and belongs to one request, and each `GET_META` payload is absent or a real
reply conduit. -/
theorem C2_completion_exactly_once (bindex : BleveIndex σ) (pindex : PIndex)
    (s : Runtime σ) (reqs : List StreamRequest) :
    (WellFormed reqs → Fresh s reqs →
        (PIndex.Run bindex pindex s reqs).panicked = false) ∧
      ((PIndex.Run bindex pindex s reqs).panicked = false →
        ∀ r ∈ reqs, ∀ c, r.DoneCh = some c →
          (PIndex.Run bindex pindex s reqs).events.filter (Event.onDone c) =
            [.doneClose c] ∨
          ∃ e, (PIndex.Run bindex pindex s reqs).events.filter (Event.onDone c) =
            [.doneSend c e, .doneClose c]) := by
  refine ⟨Run_no_panic bindex pindex reqs s, fun hrun => ?_⟩
  have shape : ∀ (c : ChanId) (l : List Event), (∃ sent, l = doneSignal c sent) →
      l = [.doneClose c] ∨ ∃ e, l = [.doneSend c e, .doneClose c] := by
    rintro c l ⟨sent, rfl⟩
    cases sent with
    | none => exact Or.inl rfl
    | some e => exact Or.inr ⟨e, rfl⟩
  by_cases hb : pindex.IndexType = "bleve"
  · rcases rollback_cases reqs with hnr | ⟨pre, rb, post, rfl, hnr, hrb, _, _⟩
    · obtain ⟨hw, hf⟩ := Run_live_graceful bindex pindex s reqs hb hnr hrun
      obtain ⟨t, ht⟩ := Run_graceful bindex pindex reqs s hb hnr hw hf
      rw [ht]
      refine fun r hr c hc => shape c _ ?_
      obtain ⟨sent, hs⟩ := servedTrace_filter_onDone bindex reqs s.impl c hw.1 r hr hc
      exact ⟨sent, by simp [hs, Event.onDone]⟩
    · obtain ⟨hw, hf, h1, hfd⟩ := Run_live_rollback bindex pindex s pre rb post hb hnr hrb hrun
      obtain ⟨t, ht⟩ := Run_rollback bindex pindex pre rb post s hb hnr hrb hw hf h1 hfd
      rw [ht]
      refine fun r hr c hc => shape c _ ?_
      rw [doneChans_append, doneChans_cons] at h1
      have h2 := List.nodup_append.1 h1
      have h3 := List.nodup_append.1 h2.2.1
      simp only [Exec.events_ok, List.filter_append]
      rcases List.mem_append.1 hr with hr | hr
      · have hmem : c ∈ doneChans pre := mem_doneChans.2 ⟨r, hr, hc⟩
        have hrbne : rb.DoneCh ≠ some c := fun e =>
          h2.2.2 hmem (List.mem_append_left _ (by simp [e]))
        have hpost : c ∉ doneChans post := fun e => h2.2.2 hmem (List.mem_append_right _ e)
        obtain ⟨sent, hs⟩ := servedTrace_filter_onDone bindex pre s.impl c h2.1 r hr hc
        exact ⟨sent, by
          rw [hs, rollbackEvents_filter_onDone_ne _ _ c hrbne,
            rejectEvents_filter_onDone_ne _ c hpost]
          simp⟩
      · rcases List.mem_cons.1 hr with hr | hr
        · subst hr
          have hpre : c ∉ doneChans pre := fun e =>
            h2.2.2 e (List.mem_append_left _ (by simp [hc]))
          have hpost : c ∉ doneChans post := fun e => h3.2.2 (by simp [hc]) e
          exact ⟨none, by
            rw [servedTrace_filter_onDone_ne _ _ _ c hpre,
              rollbackEvents_filter_onDone _ _ c hc, rejectEvents_filter_onDone_ne _ c hpost]
            simp⟩
        · have hmem : c ∈ doneChans post := mem_doneChans.2 ⟨r, hr, hc⟩
          have hpre : c ∉ doneChans pre := fun e =>
            h2.2.2 e (List.mem_append_right _ hmem)
          have hrbne : rb.DoneCh ≠ some c := fun e => h3.2.2 (by simp [e]) hmem
          exact ⟨some (.pindexAlreadyDone r), by
            rw [servedTrace_filter_onDone_ne _ _ _ c hpre,
              rollbackEvents_filter_onDone_ne _ _ c hrbne,
              rejectEvents_filter_onDone _ c h3.2.1 r hr hc]
            simp [doneSignal]⟩
  · obtain ⟨hnd, hfd⟩ := Run_live_unknown bindex pindex s reqs hb hrun
    obtain ⟨t, ht⟩ := Run_unknown bindex pindex reqs s hb hnd hfd
    rw [ht]
    refine fun r hr c hc => shape c _ ⟨some (.pindexAlreadyDone r), ?_⟩
    simp [rejectEvents_filter_onDone _ c hnd r hr hc, doneSignal, Event.onDone]

/-- C3: an `UPDATE`, `DELETE` or `SET_META` request with a live completion
conduit `c` is handled without panic, and the loop body does exactly this: the
engine call (`Index`, `Delete`, `SetInternal`), then, when the call returned an
error `e`, the send of `e` on `c` followed by the close of `c`, and when it
returned no error, only the close of `c`. -/
theorem C3_write_error_reported (bindex : BleveIndex σ) (pindex : PIndex) (s : Runtime σ)
    (req : StreamRequest) (c : ChanId) (hc : req.DoneCh = some c) (hlive : c ∉ s.closedDone) :
    (req.Op = STREAM_OP_UPDATE →
      (loopBody bindex pindex s req).panicked = false ∧
      (loopBody bindex pindex s req).events =
        .engineIndex req.Key req.Val ::
          (match (bindex.Index s.impl req.Key req.Val).2 with
            | some e => [.doneSend c e, .doneClose c]
            | none => [.doneClose c])) ∧
    (req.Op = STREAM_OP_DELETE →
      (loopBody bindex pindex s req).panicked = false ∧
      (loopBody bindex pindex s req).events =
        .engineDelete req.Key ::
          (match (bindex.Delete s.impl req.Key).2 with
            | some e => [.doneSend c e, .doneClose c]
            | none => [.doneClose c])) ∧
    (req.Op = STREAM_OP_SET_META →
      (loopBody bindex pindex s req).panicked = false ∧
      (loopBody bindex pindex s req).events =
        .engineSetInternal req.Key req.Val ::
          (match (bindex.SetInternal s.impl req.Key req.Val).2 with
            | some e => [.doneSend c e, .doneClose c]
            | none => [.doneClose c])) := by
  refine ⟨fun hop => ?_, fun hop => ?_, fun hop => ?_⟩
  · rcases he : (bindex.Index s.impl req.Key req.Val).2 with _ | e <;>
      simp [loopBody, hop, signalDone, hc, hlive, he, Exec.panicked]
  · rcases he : (bindex.Delete s.impl req.Key).2 with _ | e <;>
      simp [loopBody, hop, signalDone, hc, hlive, he, Exec.panicked]
  · rcases he : (bindex.SetInternal s.impl req.Key req.Val).2 with _ | e <;>
      simp [loopBody, hop, signalDone, hc, hlive, he, Exec.panicked]

/-- C5: a `ROLLBACK` whose completion conduit is nil or live makes
`RunBleveStream` do, in this order: engine `Close`, removal of the path, close of
the completion conduit (when there is one, nothing sent), `mgr.ClosePIndex`,
`mgr.Kick("stream-rollback")`; it then returns `(false, false, nil)` and the
requests behind the `ROLLBACK` are left unread. -/
theorem C5_rollback_order (bindex : BleveIndex σ) (pindex : PIndex) (s : Runtime σ)
    (req : StreamRequest) (rest : List StreamRequest) (hop : req.Op = STREAM_OP_ROLLBACK)
    (hlive : ∀ c, req.DoneCh = some c → c ∉ s.closedDone) :
    (RunBleveStream bindex pindex s (req :: rest)).events =
        [.engineClose, .removeAll pindex.Path] ++
          (match req.DoneCh with
            | some c => [.doneClose c]
            | none => []) ++
          [.mgrClosePIndex pindex, .mgrKick "stream-rollback"] ∧
      (RunBleveStream bindex pindex s (req :: rest)).value =
        some ⟨false, false, none, rest⟩ := by
  rcases hd : req.DoneCh with _ | c
  · simp [RunBleveStream, loopBody, hop, rollback, hd, Exec.value]
  · have := hlive c hd
    simp [RunBleveStream, loopBody, hop, rollback, hd, this, Exec.value]

/-- On a bleve partition, for a mailbox that contains a `ROLLBACK` and on which
`PIndex.Run` does not panic: over the whole run the engine is closed once, the
path is removed once, `mgr.ClosePIndex` and `mgr.Kick` are called once each, and
these four are all the teardown and manager effects, in this order; the engine
data calls are exactly those of the requests in front of the first `ROLLBACK`;
every request behind it that has a completion conduit gets its "pindex already
done" error and then the close.  And `Run` does not panic on a mailbox in which
each conduit is its own and live and each `GET_META` payload is absent or a real
reply conduit. -/
theorem rollback_teardown_once (bindex : BleveIndex σ) (pindex : PIndex) (s : Runtime σ)
    (reqs : List StreamRequest) (hb : pindex.IndexType = "bleve")
    (hrb : ∃ r ∈ reqs, r.Op = STREAM_OP_ROLLBACK) :
    (WellFormed reqs → Fresh s reqs →
        (PIndex.Run bindex pindex s reqs).panicked = false) ∧
      ((PIndex.Run bindex pindex s reqs).panicked = false →
        (PIndex.Run bindex pindex s reqs).events.count .engineClose = 1 ∧
        (PIndex.Run bindex pindex s reqs).events.count (.removeAll pindex.Path) = 1 ∧
        (PIndex.Run bindex pindex s reqs).events.count (.mgrClosePIndex pindex) = 1 ∧
        (PIndex.Run bindex pindex s reqs).events.count (.mgrKick "stream-rollback") = 1 ∧
        (PIndex.Run bindex pindex s reqs).events.filter Event.isLifecycle =
          [.engineClose, .removeAll pindex.Path, .mgrClosePIndex pindex,
            .mgrKick "stream-rollback"] ∧
        (PIndex.Run bindex pindex s reqs).events.filter Event.isEngineCall =
          (beforeRollback reqs).filterMap engineCallOf ∧
        ∀ r ∈ behindRollback reqs, ∀ c, r.DoneCh = some c →
          (PIndex.Run bindex pindex s reqs).events.filter (Event.onDone c) =
            [.doneSend c (.pindexAlreadyDone r), .doneClose c]) := by
  refine ⟨Run_no_panic bindex pindex reqs s, fun hrun => ?_⟩
  rcases rollback_cases reqs with hnr | ⟨pre, rb, post, rfl, hnr, hop, hb1, hb2⟩
  · obtain ⟨r, hr, hrop⟩ := hrb
    exact absurd hrop (hnr r hr)
  · obtain ⟨hw, hf, h1, hfd⟩ := Run_live_rollback bindex pindex s pre rb post hb hnr hop hrun
    obtain ⟨t, ht⟩ := Run_rollback bindex pindex pre rb post s hb hnr hop hw hf h1 hfd
    rw [ht, hb1, hb2]
    simp only [Exec.events_ok]
    have hlife : (servedTrace bindex s.impl pre ++ rollbackEvents pindex rb ++
        post.flatMap rejectEvents).filter Event.isLifecycle =
        [.engineClose, .removeAll pindex.Path, .mgrClosePIndex pindex,
          .mgrKick "stream-rollback"] := by
      simp [servedTrace_filter_lifecycle, rollbackEvents_filter_lifecycle,
        rejectEvents_filter_lifecycle]
    have hcount : ∀ a : Event, a.isLifecycle = true →
        (servedTrace bindex s.impl pre ++ rollbackEvents pindex rb ++
          post.flatMap rejectEvents).count a =
        ([.engineClose, .removeAll pindex.Path, .mgrClosePIndex pindex,
          .mgrKick "stream-rollback"] : List Event).count a := by
      intro a ha
      rw [← hlife, List.count_filter ha]
    refine ⟨?_, ?_, ?_, ?_, hlife, ?_, ?_⟩
    · rw [hcount .engineClose rfl]; simp
    · rw [hcount (.removeAll pindex.Path) rfl]; simp
    · rw [hcount (.mgrClosePIndex pindex) rfl]; simp
    · rw [hcount (.mgrKick "stream-rollback") rfl]; simp
    · simp [servedTrace_filter_engine, rollbackEvents_filter_engine,
        rejectEvents_filter_engine]
    · intro r hr c hc
      rw [doneChans_append, doneChans_cons] at h1
      have h2 := List.nodup_append.1 h1
      have h3 := List.nodup_append.1 h2.2.1
      have hmem : c ∈ doneChans post := mem_doneChans.2 ⟨r, hr, hc⟩
      have hpre : c ∉ doneChans pre := fun e => h2.2.2 e (List.mem_append_right _ hmem)
      have hrbne : rb.DoneCh ≠ some c := fun e => h3.2.2 (by simp [e]) hmem
      rw [List.filter_append, List.filter_append, servedTrace_filter_onDone_ne _ _ _ c hpre,
        rollbackEvents_filter_onDone_ne _ _ c hrbne,
        rejectEvents_filter_onDone _ c h3.2.1 r hr hc]
      rfl

/-- C8: on a partition whose index type is not "bleve", on every mailbox on which
`Run` does not panic it does exactly this: engine `Close`, removal of the path,
then for every request in turn that has a completion conduit the "pindex already
done" error and the close of the conduit; no engine data call and no manager call
is made.  And `Run` does not panic on any mailbox whose completion conduits are
live and each its own. -/
theorem C8_unknown_type_rejects_all (bindex : BleveIndex σ) (pindex : PIndex)
    (s : Runtime σ) (reqs : List StreamRequest) (hb : pindex.IndexType ≠ "bleve") :
    ((doneChans reqs).Nodup → (∀ c ∈ doneChans reqs, c ∉ s.closedDone) →
        (PIndex.Run bindex pindex s reqs).panicked = false) ∧
      ((PIndex.Run bindex pindex s reqs).panicked = false →
        (PIndex.Run bindex pindex s reqs).events =
          [.engineClose, .removeAll pindex.Path] ++
            reqs.flatMap (fun r =>
              match r.DoneCh with
              | some c => [.doneSend c (.pindexAlreadyDone r), .doneClose c]
              | none => [])) := by
  constructor
  · intro hnd hfd
    obtain ⟨t, ht⟩ := Run_unknown bindex pindex reqs s hb hnd hfd
    rw [ht]
    rfl
  · intro hrun
    obtain ⟨hnd, hfd⟩ := Run_live_unknown bindex pindex s reqs hb hrun
    obtain ⟨t, ht⟩ := Run_unknown bindex pindex reqs s hb hnd hfd
    rw [ht]
    rfl

/-- On a bleve partition, for a mailbox without `ROLLBACK` on which `Run` does
not panic, `RunBleveStream` returns `(true, true, nil)` with the stream read to
its end and makes no teardown effect itself, and `Run` does what `RunBleveStream`
did followed by the engine `Close` and then the removal of the path, once each,
after the last request; `Run` does not panic on a mailbox in which each conduit
is its own and live and each `GET_META` payload is absent or a real reply
conduit.  And on every run of `Run` whatever the index type, the mailbox and the
outcome, every removal of a path has the engine `Close` in front of it. -/
theorem graceful_teardown (bindex : BleveIndex σ) (pindex : PIndex) (s : Runtime σ)
    (reqs : List StreamRequest) (hb : pindex.IndexType = "bleve") (hnr : NoRollback reqs) :
    (WellFormed reqs → Fresh s reqs →
        (PIndex.Run bindex pindex s reqs).panicked = false) ∧
      ((PIndex.Run bindex pindex s reqs).panicked = false →
        (RunBleveStream bindex pindex s reqs).value = some ⟨true, true, none, []⟩ ∧
        (RunBleveStream bindex pindex s reqs).events.filter Event.isLifecycle = [] ∧
        (PIndex.Run bindex pindex s reqs).events =
          (RunBleveStream bindex pindex s reqs).events ++
            [.engineClose, .removeAll pindex.Path]) ∧
      ∀ (q : PIndex) (t : Runtime σ) (stream : List StreamRequest) (pre : List Event)
        (path : String) (post : List Event),
        (PIndex.Run bindex q t stream).events = pre ++ .removeAll path :: post →
          .engineClose ∈ pre := by
  refine ⟨Run_no_panic bindex pindex reqs s, fun hrun => ?_, ?_⟩
  · obtain ⟨hw, hf⟩ := Run_live_graceful bindex pindex s reqs hb hnr hrun
    obtain ⟨t, ht⟩ := Run_graceful bindex pindex reqs s hb hnr hw hf
    rw [ht, RunBleveStream_noRollback bindex pindex reqs s hnr hw hf]
    exact ⟨rfl, servedTrace_filter_lifecycle bindex reqs s.impl, rfl⟩
  · intro q t stream pre path post h
    exact (Run_guarded bindex q t stream).closeBeforeRemove pre path post h

/-- C9: over an engine whose `GetInternal` reads back the latest successful
`SetInternal`, on every mailbox on which `RunBleveStream` does not panic, a
`GET_META` for key `k` with reply conduit `c`, received after a successful
`SET_META(k, v)` with neither a `ROLLBACK` nor a `SET_META` on `k` in between,
puts on `c` exactly `v` and then the close; `RunBleveStream` does not panic on
any mailbox that respects the data model.  And whenever `GetInternal` returns an
error for a `GET_META` with a live reply conduit `c`, the loop body puts on `c`
only the close. -/
theorem C9_get_meta_round_trip (bindex : BleveIndex σ) (hlaw : MetaRoundTrip bindex)
    (pindex : PIndex) (s : Runtime σ) (setReq getReq : StreamRequest)
    (mid post : List StreamRequest) (c : ChanId)
    (hset : setReq.Op = STREAM_OP_SET_META)
    (hok : (bindex.SetInternal s.impl setReq.Key setReq.Val).2 = none)
    (hget : getReq.Op = STREAM_OP_GET_META) (hkey : getReq.Key = setReq.Key)
    (hmisc : getReq.Misc = .bytesChan (some c)) (hnr : NoRollback mid)
    (hns : ∀ r ∈ mid, r.Op = STREAM_OP_SET_META → r.Key ≠ setReq.Key) :
    (WellFormed (setReq :: mid ++ getReq :: post) →
        Fresh s (setReq :: mid ++ getReq :: post) →
        (RunBleveStream bindex pindex s (setReq :: mid ++ getReq :: post)).panicked =
          false) ∧
      ((RunBleveStream bindex pindex s (setReq :: mid ++ getReq :: post)).panicked = false →
        (RunBleveStream bindex pindex s (setReq :: mid ++ getReq :: post)).events.filter
          (Event.onMisc c) = [.miscSend c setReq.Val, .miscClose c]) ∧
      ∀ (t : Runtime σ) (req : StreamRequest) (d : ChanId) (e : GoError),
        req.Op = STREAM_OP_GET_META → req.Misc = .bytesChan (some d) → d ∉ t.closedMisc →
        (bindex.GetInternal t.impl req.Key).2.2 = some e →
        (loopBody bindex pindex t req).events.filter (Event.onMisc d) = [.miscClose d] := by
  refine ⟨RunBleveStream_no_panic bindex pindex _ s, fun hrun => ?_, ?_⟩
  · have hcg : miscChanOf getReq = some c := by simp [miscChanOf, hget, hmisc]
    have apart : ∀ tl : List StreamRequest,
        (miscChans (setReq :: mid ++ getReq :: tl)).Nodup →
        c ∉ miscChans mid ∧ c ∉ miscChans tl := by
      intro tl hm
      rw [show setReq :: mid ++ getReq :: tl = setReq :: (mid ++ getReq :: tl) from rfl,
        miscChans_cons, miscChans_append, miscChans_cons, hcg] at hm
      have hm2 := (List.nodup_append.1 hm).2.1
      have hm3 := List.nodup_append.1 hm2
      have hm4 := (List.nodup_append.1 hm3.2.1).2.2
      exact ⟨fun h => hm3.2.2 h (by simp), fun h => hm4 (by simp) h⟩
    have hsetop : setReq.Op ≠ STREAM_OP_ROLLBACK := by rw [hset]; decide
    have hgetop : getReq.Op ≠ STREAM_OP_ROLLBACK := by rw [hget]; decide
    have front : ∀ tl : List StreamRequest, NoRollback tl →
        NoRollback (setReq :: mid ++ getReq :: tl) := by
      intro tl htl r hr
      rcases List.mem_cons.1 hr with e | hr
      · rw [e]; exact hsetop
      · rcases List.mem_append.1 hr with hr | hr
        · exact hnr r hr
        · rcases List.mem_cons.1 hr with e | hr
          · rw [e]; exact hgetop
          · exact htl r hr
    rcases rollback_cases post with hnp | ⟨p1, rb, p2, rfl, hnp, hrb, _, _⟩
    · obtain ⟨hw, hf⟩ := RunBleveStream_live bindex pindex _ s (front post hnp) hrun
      obtain ⟨hmid, hpost⟩ := apart post hw.2.1
      rw [RunBleveStream_noRollback bindex pindex _ s (front post hnp) hw hf]
      exact roundTrip_trace hlaw s.impl setReq getReq mid post c hset hok hget hkey hmisc
        hnr hns hmid hpost
    · have hre : setReq :: mid ++ getReq :: (p1 ++ rb :: p2) =
          (setReq :: mid ++ getReq :: p1) ++ rb :: p2 := by simp
      rw [hre] at hrun ⊢
      obtain ⟨hw, hf⟩ := RunBleveStream_live_rollback bindex pindex _ rb p2 s (front p1 hnp) hrun
      obtain ⟨hmid, hp1⟩ := apart p1 hw.of_append_left.2.1
      rw [RunBleveStream_rollback_served bindex pindex _ rb p2 s (front p1 hnp) hrb hw hf]
      simp only [Exec.events_ok, List.filter_append, rollbackEvents_filter_onMisc,
        List.append_nil]
      exact roundTrip_trace hlaw s.impl setReq getReq mid p1 c hset hok hget hkey hmisc
        hnr hns hmid hp1
  · intro t req d e hop hm hd he
    unfold loopBody getMeta
    simp only [hop, hm, he, hd, if_false]
    unfold signalDone
    rcases req.DoneCh with _ | dc
    · simp [Event.onMisc]
    · by_cases hdc : dc ∈ t.closedDone <;> simp [hdc, Event.onMisc]

end Claims

/-! ## The claims on concrete inputs -/

section Concrete

theorem fake_roundTrip : MetaRoundTrip fakeIndex where
  set_get := by
    intro impl k v h
    by_cases hk : k = []
    · simp [fakeIndex, hk] at h
    · simp [fakeIndex, hk, List.lookup]
  index_keeps := by
    intro impl id d k
    by_cases hid : id = []
    · simp [fakeIndex, hid]
    · simp only [fakeIndex, hid, if_false]
      rcases impl.internal.lookup k with _ | v <;> rfl
  delete_keeps := by
    intro impl id k
    by_cases hid : id = []
    · simp [fakeIndex, hid]
    · simp only [fakeIndex, hid, if_false]
      rcases impl.internal.lookup k with _ | v <;> rfl
  get_keeps := by
    intro impl k1 k
    simp only [fakeIndex]
    rcases impl.internal.lookup k1 with _ | v <;> rfl
  set_keeps := by
    intro impl k1 v k hne
    by_cases hk : k1 = []
    · simp [fakeIndex, hk]
    · have hb : (k == k1) = false := by
        simpa using fun e : k = k1 => hne e.symm
      simp only [fakeIndex, hk, if_false, List.lookup, hb]
      rcases impl.internal.lookup k with _ | v <;> rfl

theorem writes_in_enqueue_order_sample :
    WellFormed sampleStream ∧ Fresh (Runtime.init FakeEngine.empty) sampleStream ∧
      (RunBleveStream fakeIndex blevePIndex (Runtime.init FakeEngine.empty)
        sampleStream).panicked = false ∧
      (RunBleveStream fakeIndex blevePIndex (Runtime.init FakeEngine.empty)
        sampleStream).events.filter Event.isWrite =
        (beforeRollback sampleStream).filterMap writeCallOf :=
  have h := writes_in_enqueue_order fakeIndex blevePIndex
    (Runtime.init FakeEngine.empty) sampleStream
  ⟨by decide, by decide, h.1 (by decide) (by decide), h.2 (h.1 (by decide) (by decide))⟩

theorem C2_witness :
    WellFormed sampleStream ∧ Fresh (Runtime.init FakeEngine.empty) sampleStream ∧
      (PIndex.Run fakeIndex blevePIndex (Runtime.init FakeEngine.empty)
        sampleStream).panicked = false ∧
      ∀ r ∈ sampleStream, ∀ c, r.DoneCh = some c →
        (PIndex.Run fakeIndex blevePIndex (Runtime.init FakeEngine.empty)
          sampleStream).events.filter (Event.onDone c) = [.doneClose c] ∨
        ∃ e, (PIndex.Run fakeIndex blevePIndex (Runtime.init FakeEngine.empty)
          sampleStream).events.filter (Event.onDone c) = [.doneSend c e, .doneClose c] :=
  have h := C2_completion_exactly_once fakeIndex blevePIndex
    (Runtime.init FakeEngine.empty) sampleStream
  ⟨by decide, by decide, h.1 (by decide) (by decide), h.2 (h.1 (by decide) (by decide))⟩

theorem C3_witness :
    (loopBody fakeIndex blevePIndex (Runtime.init FakeEngine.empty)
        (mkReq STREAM_OP_UPDATE [] [9] .nil (some 1))).events =
        [.engineIndex [] [9], .doneSend 1 (.engine 1), .doneClose 1] ∧
      (loopBody fakeIndex blevePIndex (Runtime.init FakeEngine.empty)
        (mkReq STREAM_OP_SET_META [5] [7] .nil (some 2))).events =
        [.engineSetInternal [5] [7], .doneClose 2] :=
  ⟨((C3_write_error_reported fakeIndex blevePIndex (Runtime.init FakeEngine.empty)
      (mkReq STREAM_OP_UPDATE [] [9] .nil (some 1)) 1 rfl (by decide)).1 rfl).2,
    ((C3_write_error_reported fakeIndex blevePIndex (Runtime.init FakeEngine.empty)
      (mkReq STREAM_OP_SET_META [5] [7] .nil (some 2)) 2 rfl (by decide)).2.2 rfl).2⟩

theorem C5_witness :
    (RunBleveStream fakeIndex blevePIndex (Runtime.init FakeEngine.empty)
        (mkReq STREAM_OP_ROLLBACK [] [] .nil (some 5) ::
          [mkReq STREAM_OP_UPDATE [2] [9] .nil (some 6)])).events =
        [.engineClose, .removeAll "/data/p0", .doneClose 5, .mgrClosePIndex blevePIndex,
          .mgrKick "stream-rollback"] ∧
      (RunBleveStream fakeIndex blevePIndex (Runtime.init FakeEngine.empty)
        (mkReq STREAM_OP_ROLLBACK [] [] .nil (some 5) ::
          [mkReq STREAM_OP_UPDATE [2] [9] .nil (some 6)])).value =
        some ⟨false, false, none, [mkReq STREAM_OP_UPDATE [2] [9] .nil (some 6)]⟩ :=
  C5_rollback_order fakeIndex blevePIndex (Runtime.init FakeEngine.empty)
    (mkReq STREAM_OP_ROLLBACK [] [] .nil (some 5))
    [mkReq STREAM_OP_UPDATE [2] [9] .nil (some 6)] rfl (by decide)

theorem rollback_teardown_once_sample :
    (∃ r ∈ sampleStream, r.Op = STREAM_OP_ROLLBACK) ∧ WellFormed sampleStream ∧
      (PIndex.Run fakeIndex blevePIndex (Runtime.init FakeEngine.empty)
        sampleStream).panicked = false ∧
      (PIndex.Run fakeIndex blevePIndex (Runtime.init FakeEngine.empty)
        sampleStream).events.count .engineClose = 1 ∧
      (PIndex.Run fakeIndex blevePIndex (Runtime.init FakeEngine.empty)
        sampleStream).events.filter Event.isEngineCall =
        (beforeRollback sampleStream).filterMap engineCallOf :=
  have h := rollback_teardown_once fakeIndex blevePIndex (Runtime.init FakeEngine.empty)
    sampleStream rfl (by decide)
  have hrun := h.1 (by decide) (by decide)
  ⟨by decide, by decide, hrun, (h.2 hrun).1, (h.2 hrun).2.2.2.2.2.1⟩

theorem graceful_teardown_sample :
    NoRollback gracefulStream ∧ WellFormed gracefulStream ∧
      (PIndex.Run fakeIndex blevePIndex (Runtime.init FakeEngine.empty)
        gracefulStream).panicked = false ∧
      (PIndex.Run fakeIndex blevePIndex (Runtime.init FakeEngine.empty)
        gracefulStream).events =
        (RunBleveStream fakeIndex blevePIndex (Runtime.init FakeEngine.empty)
          gracefulStream).events ++ [.engineClose, .removeAll blevePIndex.Path] :=
  have h := graceful_teardown fakeIndex blevePIndex (Runtime.init FakeEngine.empty)
    gracefulStream rfl (by decide)
  have hrun := h.1 (by decide) (by decide)
  ⟨by decide, by decide, hrun, (h.2.1 hrun).2.2⟩

theorem C8_witness :
    otherPIndex.IndexType ≠ "bleve" ∧ (doneChans sampleStream).Nodup ∧
      (PIndex.Run fakeIndex otherPIndex (Runtime.init FakeEngine.empty)
        sampleStream).panicked = false ∧
      (PIndex.Run fakeIndex otherPIndex (Runtime.init FakeEngine.empty)
        sampleStream).events.filter Event.isEngineCall = [] :=
  have h := C8_unknown_type_rejects_all fakeIndex otherPIndex
    (Runtime.init FakeEngine.empty) sampleStream (by decide)
  have hrun := h.1 (by decide) (by decide)
  ⟨by decide, by decide, hrun, by
    rw [h.2 hrun]
    decide⟩

theorem C9_witness :
    (RunBleveStream fakeIndex blevePIndex (Runtime.init FakeEngine.empty)
        (mkReq STREAM_OP_SET_META [5] [7] .nil (some 2) ::
          [mkReq STREAM_OP_UPDATE [1] [9] .nil (some 0)] ++
          mkReq STREAM_OP_GET_META [5] [] (.bytesChan (some 0)) (some 3) ::
          [mkReq STREAM_OP_ROLLBACK [] [] .nil (some 5)])).panicked = false ∧
      (RunBleveStream fakeIndex blevePIndex (Runtime.init FakeEngine.empty)
        (mkReq STREAM_OP_SET_META [5] [7] .nil (some 2) ::
          [mkReq STREAM_OP_UPDATE [1] [9] .nil (some 0)] ++
          mkReq STREAM_OP_GET_META [5] [] (.bytesChan (some 0)) (some 3) ::
          [mkReq STREAM_OP_ROLLBACK [] [] .nil (some 5)])).events.filter
        (Event.onMisc 0) = [.miscSend 0 [7], .miscClose 0] :=
  have h := C9_get_meta_round_trip fakeIndex fake_roundTrip blevePIndex
    (Runtime.init FakeEngine.empty) (mkReq STREAM_OP_SET_META [5] [7] .nil (some 2))
    (mkReq STREAM_OP_GET_META [5] [] (.bytesChan (some 0)) (some 3))
    [mkReq STREAM_OP_UPDATE [1] [9] .nil (some 0)]
    [mkReq STREAM_OP_ROLLBACK [] [] .nil (some 5)] 0 rfl rfl rfl rfl rfl (by decide)
    (by decide)
  have hrun := h.1 (by decide) (by decide)
  ⟨hrun, h.2.1 hrun⟩

/-- C4: a `GET_META` whose `GetInternal` returns an error (key `[6]` was never
set, the fake engine answers with error 3) and whose completion conduit 0 is
live: the loop body calls `GetInternal` and closes conduit 0, and no error is
sent on it. -/
theorem C4_get_meta_error_not_sent :
    (fakeIndex.GetInternal FakeEngine.empty [6]).2.2 = some (.engine 3) ∧
      (loopBody fakeIndex blevePIndex (Runtime.init FakeEngine.empty)
        (mkReq STREAM_OP_GET_META [6] [] .nil (some 0))).events =
        [.engineGetInternal [6], .doneClose 0] ∧
      (loopBody fakeIndex blevePIndex (Runtime.init FakeEngine.empty)
        (mkReq STREAM_OP_GET_META [6] [] (.bytesChan (some 1)) (some 0))).events =
        [.engineGetInternal [6], .miscClose 1, .doneClose 0] := by
  refine ⟨rfl, rfl, rfl⟩

/-- C10: a `GET_META` whose `Misc` holds a value that is not a `chan []byte`, or
holds a nil `chan []byte`, makes the loop body panic with a close of a nil
channel right after `GetInternal`; the completion conduit of the request is
never signalled and the `UPDATE` queued behind it is never applied. -/
theorem C10_get_meta_bad_misc_panics :
    (loopBody fakeIndex blevePIndex (Runtime.init FakeEngine.empty)
        (mkReq STREAM_OP_GET_META [6] [] (.other 0) (some 0))).panicked = true ∧
      (loopBody fakeIndex blevePIndex (Runtime.init FakeEngine.empty)
        (mkReq STREAM_OP_GET_META [6] [] (.bytesChan none) (some 0))).panicked = true ∧
      (RunBleveStream fakeIndex blevePIndex (Runtime.init FakeEngine.empty)
        [mkReq STREAM_OP_GET_META [6] [] (.other 0) (some 0),
          mkReq STREAM_OP_UPDATE [1] [9] .nil (some 1)]).panicked = true ∧
      (RunBleveStream fakeIndex blevePIndex (Runtime.init FakeEngine.empty)
        [mkReq STREAM_OP_GET_META [6] [] (.other 0) (some 0),
          mkReq STREAM_OP_UPDATE [1] [9] .nil (some 1)]).events =
        [.engineGetInternal [6]] := by
  refine ⟨rfl, rfl, rfl, rfl⟩

/-- C1: a `GET_META` whose `Misc` holds a nil `chan []byte`, followed by an
`UPDATE`: `RunBleveStream` panics on the close of the nil channel right after
`GetInternal`, so its engine write calls are none, while the `UPDATE`/`DELETE`
requests in front of the first `ROLLBACK` are the one `UPDATE`, whose
`Index([1], [9])` is never made. -/
theorem C1_bad_misc_stops_writes :
    (RunBleveStream fakeIndex blevePIndex (Runtime.init FakeEngine.empty)
        [mkReq STREAM_OP_GET_META [6] [] (.bytesChan none) none,
          mkReq STREAM_OP_UPDATE [1] [9] .nil (some 1)]).panicked = true ∧
      (RunBleveStream fakeIndex blevePIndex (Runtime.init FakeEngine.empty)
        [mkReq STREAM_OP_GET_META [6] [] (.bytesChan none) none,
          mkReq STREAM_OP_UPDATE [1] [9] .nil (some 1)]).events.filter Event.isWrite = [] ∧
      (beforeRollback
        [mkReq STREAM_OP_GET_META [6] [] (.bytesChan none) none,
          mkReq STREAM_OP_UPDATE [1] [9] .nil (some 1)]).filterMap writeCallOf =
        [.engineIndex [1] [9]] := by
  refine ⟨rfl, rfl, rfl⟩

/-- C6: on a bleve partition, a `GET_META` whose `Misc` is not a `chan []byte`,
followed by a `ROLLBACK` and an `UPDATE`: `Run` panics on the close of the nil
channel before it reaches the `ROLLBACK`; over the whole run the only effect is
the `GetInternal` call, so the engine is never closed, the path never removed,
`mgr.ClosePIndex` and `mgr.Kick` never called, and the `UPDATE` behind the
`ROLLBACK` gets neither a "pindex already done" error nor a close. -/
theorem C6_bad_misc_before_rollback :
    (PIndex.Run fakeIndex blevePIndex (Runtime.init FakeEngine.empty)
        [mkReq STREAM_OP_GET_META [6] [] (.other 0) (some 0),
          mkReq STREAM_OP_ROLLBACK [] [] .nil (some 1),
          mkReq STREAM_OP_UPDATE [1] [9] .nil (some 2)]).panicked = true ∧
      (PIndex.Run fakeIndex blevePIndex (Runtime.init FakeEngine.empty)
        [mkReq STREAM_OP_GET_META [6] [] (.other 0) (some 0),
          mkReq STREAM_OP_ROLLBACK [] [] .nil (some 1),
          mkReq STREAM_OP_UPDATE [1] [9] .nil (some 2)]).events =
        [.engineGetInternal [6]] ∧
      (PIndex.Run fakeIndex blevePIndex (Runtime.init FakeEngine.empty)
        [mkReq STREAM_OP_GET_META [6] [] (.other 0) (some 0),
          mkReq STREAM_OP_ROLLBACK [] [] .nil (some 1),
          mkReq STREAM_OP_UPDATE [1] [9] .nil (some 2)]).events.count .engineClose = 0 ∧
      (PIndex.Run fakeIndex blevePIndex (Runtime.init FakeEngine.empty)
        [mkReq STREAM_OP_GET_META [6] [] (.other 0) (some 0),
          mkReq STREAM_OP_ROLLBACK [] [] .nil (some 1),
          mkReq STREAM_OP_UPDATE [1] [9] .nil (some 2)]).events.filter
        Event.isLifecycle = [] ∧
      (PIndex.Run fakeIndex blevePIndex (Runtime.init FakeEngine.empty)
        [mkReq STREAM_OP_GET_META [6] [] (.other 0) (some 0),
          mkReq STREAM_OP_ROLLBACK [] [] .nil (some 1),
          mkReq STREAM_OP_UPDATE [1] [9] .nil (some 2)]).events.filter
        (Event.onDone 2) = [] := by
  refine ⟨rfl, rfl, rfl, rfl, rfl⟩

/-- C7: on a bleve partition, a mailbox without `ROLLBACK` made of a `GET_META`
whose `Misc` is not a `chan []byte` and a `DELETE`: `RunBleveStream` panics on
the close of the nil channel and returns nothing, so `Run` never closes the
engine and never removes the path; the only effect of the run is the
`GetInternal` call. -/
theorem C7_bad_misc_no_teardown :
    NoRollback
        [mkReq STREAM_OP_GET_META [6] [] (.other 1) (some 0),
          mkReq STREAM_OP_DELETE [1] [] .nil (some 1)] ∧
      (RunBleveStream fakeIndex blevePIndex (Runtime.init FakeEngine.empty)
        [mkReq STREAM_OP_GET_META [6] [] (.other 1) (some 0),
          mkReq STREAM_OP_DELETE [1] [] .nil (some 1)]).value = none ∧
      (PIndex.Run fakeIndex blevePIndex (Runtime.init FakeEngine.empty)
        [mkReq STREAM_OP_GET_META [6] [] (.other 1) (some 0),
          mkReq STREAM_OP_DELETE [1] [] .nil (some 1)]).panicked = true ∧
      (PIndex.Run fakeIndex blevePIndex (Runtime.init FakeEngine.empty)
        [mkReq STREAM_OP_GET_META [6] [] (.other 1) (some 0),
          mkReq STREAM_OP_DELETE [1] [] .nil (some 1)]).events =
        [.engineGetInternal [6]] ∧
      (PIndex.Run fakeIndex blevePIndex (Runtime.init FakeEngine.empty)
        [mkReq STREAM_OP_GET_META [6] [] (.other 1) (some 0),
          mkReq STREAM_OP_DELETE [1] [] .nil (some 1)]).events.count .engineClose = 0 ∧
      (PIndex.Run fakeIndex blevePIndex (Runtime.init FakeEngine.empty)
        [mkReq STREAM_OP_GET_META [6] [] (.other 1) (some 0),
          mkReq STREAM_OP_DELETE [1] [] .nil (some 1)]).events.count
        (.removeAll blevePIndex.Path) = 0 := by
  refine ⟨by decide, rfl, rfl, rfl, rfl, rfl⟩

end Concrete

end Cbgt
